import Mathlib

/-!
# Awesome Todo (`script.js`): a shallow embedding

The script keeps a list of todos in a module-level variable, mirrors it into one
`localStorage` slot as JSON, and classifies due dates relative to the local calendar day.

Platform behaviour the script relies on is modelled explicitly:

* strings are sequences of Unicode scalar values (`String`);
* a `Date` is its time value in milliseconds since the epoch, or absent for an invalid date;
  date texts outside the ECMAScript format, whose reading is left to the engine, are
  invalid dates;
* the local time zone is a standard offset with an optional daylight-saving period, and
  local time follows the ECMAScript functions `LocalTime` and `UTC`;
* `localStorage` is a list of entries with a quota, so that `setItem` can throw;
* `JSON.stringify` and `JSON.parse` are a printer and a parser over characters;
* `Math.random`, `Date.now`, `confirm` and the case mapping behind `toLowerCase` are
  supplied by the environment.

The todo list of the page is a list of well-formed todo objects (`List Todo`); what `load()`
reads from the storage is an arbitrary JSON value (`JSON`).
-/

namespace AwesomeTodo

/-! ## Strings -/

/-- The code points removed by `String.prototype.trim`: ECMAScript white space and line
terminators. -/
def isTrimChar (c : Char) : Bool :=
  c.toNat = 0x09 || c.toNat = 0x0A || c.toNat = 0x0B || c.toNat = 0x0C || c.toNat = 0x0D ||
  c.toNat = 0x20 || c.toNat = 0xA0 || c.toNat = 0x1680 ||
  (0x2000 ≤ c.toNat && c.toNat ≤ 0x200A) ||
  c.toNat = 0x2028 || c.toNat = 0x2029 || c.toNat = 0x202F || c.toNat = 0x205F ||
  c.toNat = 0x3000 || c.toNat = 0xFEFF

/-- Strip trimmable characters from both ends of a character list. -/
def trimChars (cs : List Char) : List Char :=
  ((cs.dropWhile isTrimChar).reverse.dropWhile isTrimChar).reverse

/-- The method `String.prototype.trim`. -/
def trim (s : String) : String := String.mk (trimChars s.data)

/-- A string is blank when it is empty or consists of white space only. -/
def isBlank (s : String) : Bool := s.data.all isTrimChar

/-- JavaScript truthiness of a string: every string but the empty one. -/
def truthy (s : String) : Bool := !(s.data.isEmpty)

/-! ## Calendar arithmetic behind `Date` -/

/-- Milliseconds in a day. -/
def msPerDay : Int := 86400000

/-- Milliseconds in an hour. -/
def msPerHour : Int := 3600000

/-- Day number (days since 1970-01-01) of a proleptic Gregorian date; `m` is 1-based. -/
def daysFromCivil (y m d : Int) : Int :=
  let y1 := if m ≤ 2 then y - 1 else y
  let era := y1 / 400
  let yoe := y1 - era * 400
  let mp := if m > 2 then m - 3 else m + 9
  let doy := (153 * mp + 2) / 5 + d - 1
  let doe := yoe * 365 + yoe / 4 - yoe / 100 + doy
  era * 146097 + doe - 719468

/-- Year, month (1-based) and day of the month of a day number. -/
def civilFromDays (z : Int) : Int × Int × Int :=
  let z1 := z + 719468
  let era := z1 / 146097
  let doe := z1 - era * 146097
  let yoe := (doe - doe / 1460 + doe / 36524 - doe / 146096) / 365
  let doy := doe - (365 * yoe + yoe / 4 - yoe / 100)
  let mp := (5 * doy + 2) / 153
  let d := doy - (153 * mp + 2) / 5 + 1
  let m := if mp < 10 then mp + 3 else mp - 9
  (if m ≤ 2 then yoe + era * 400 + 1 else yoe + era * 400, m, d)

/-- Decimal digits of a number, padded with zeros on the left to at least `width`. -/
def padDigits (width n : Nat) : List Char :=
  List.replicate (width - (Nat.toDigits 10 n).length) '0' ++ Nat.toDigits 10 n

/-- The date part of `Date.prototype.toISOString` for a day number: `YYYY-MM-DD`, with an
expanded year `±YYYYYY` outside the years 0 to 9999. -/
def isoDateChars (day : Int) : List Char :=
  match civilFromDays day with
  | (y, m, d) =>
    (if 0 ≤ y ∧ y ≤ 9999 then padDigits 4 y.toNat
      else if y < 0 then '-' :: padDigits 6 (-y).toNat
      else '+' :: padDigits 6 y.toNat) ++
    '-' :: padDigits 2 m.toNat ++ '-' :: padDigits 2 d.toNat

/-- Gregorian leap years. -/
def isLeapYear (y : Int) : Bool :=
  (y % 4 == 0 && y % 100 != 0) || y % 400 == 0

/-- Number of days of month `m` (1-based) in year `y`. -/
def daysInMonth (y m : Int) : Int :=
  if m == 2 then (if isLeapYear y then 29 else 28)
  else if m == 4 || m == 6 || m == 9 || m == 11 then 30
  else 31

/-- Value of a decimal digit. -/
def digitVal (c : Char) : Option Int :=
  if 48 ≤ c.toNat ∧ c.toNat ≤ 57 then some ((c.toNat : Int) - 48) else none

/-- Value of a run of decimal digits, most significant first, on top of `acc`. -/
def digitsVal (acc : Int) : List Char → Option Int
  | [] => some acc
  | c :: cs =>
    match digitVal c with
    | some v => digitsVal (10 * acc + v) cs
    | none => none

/-- The `-MM` and `-MM-DD` tails of an ISO date; a missing field defaults to 1. -/
def isoMonthDay : List Char → Option (Int × Int)
  | [] => some (1, 1)
  | ['-', m1, m2] => (digitsVal 0 [m1, m2]).map (fun m => (m, 1))
  | ['-', m1, m2, '-', d1, d2] =>
    match digitsVal 0 [m1, m2], digitsVal 0 [d1, d2] with
    | some m, some d => some (m, d)
    | _, _ => none
  | _ => none

/-- Year, month and day written by a date-only form of the ECMAScript date-time string
format: `YYYY`, `YYYY-MM`, `YYYY-MM-DD`, or the same with an expanded year `±YYYYYY`. -/
def isoDateFields : List Char → Option (Int × Int × Int)
  | '+' :: a :: b :: c :: d :: e :: f :: rest =>
    match digitsVal 0 [a, b, c, d, e, f], isoMonthDay rest with
    | some y, some (m, dd) => some (y, m, dd)
    | _, _ => none
  | '-' :: a :: b :: c :: d :: e :: f :: rest =>
    match digitsVal 0 [a, b, c, d, e, f], isoMonthDay rest with
    | some y, some (m, dd) => if y = 0 then none else some (-y, m, dd)
    | _, _ => none
  | a :: b :: c :: d :: rest =>
    match digitsVal 0 [a, b, c, d], isoMonthDay rest with
    | some y, some (m, dd) => some (y, m, dd)
    | _, _ => none
  | _ => none

/-- Day number of the calendar date written by an ISO date string; absent when the string
is not a date-only form or names a day that does not exist. -/
def isoDay (s : String) : Option Int :=
  match isoDateFields s.data with
  | some (y, m, d) =>
    if 1 ≤ m ∧ m ≤ 12 ∧ 1 ≤ d ∧ d ≤ daysInMonth y m then some (daysFromCivil y m d) else none
  | none => none

/-- Day number of the value of a date input with a four-digit year: the text `YYYY-MM-DD`
of a day that exists, in the years 0001 to 9999. -/
def dateInputDay (s : String) : Option Int :=
  match s.data with
  | [y1, y2, y3, y4, '-', m1, m2, '-', d1, d2] =>
    match digitsVal 0 [y1, y2, y3, y4], digitsVal 0 [m1, m2], digitsVal 0 [d1, d2] with
    | some y, some m, some d =>
      if 1 ≤ y ∧ 1 ≤ m ∧ m ≤ 12 ∧ 1 ≤ d ∧ d ≤ daysInMonth y m then
        some (daysFromCivil y m d)
      else none
    | _, _, _ => none
  | _ => none

/-- Hour, minute, second and millisecond written by a time form `HH:mm`, `HH:mm:ss` or
`HH:mm:ss.sss` (no UTC offset: the script never appends one). -/
def isoTimeFields : List Char → Option (Int × Int × Int × Int)
  | [h1, h2, ':', m1, m2] =>
    match digitsVal 0 [h1, h2], digitsVal 0 [m1, m2] with
    | some h, some m => some (h, m, 0, 0)
    | _, _ => none
  | [h1, h2, ':', m1, m2, ':', s1, s2] =>
    match digitsVal 0 [h1, h2], digitsVal 0 [m1, m2], digitsVal 0 [s1, s2] with
    | some h, some m, some s => some (h, m, s, 0)
    | _, _, _ => none
  | [h1, h2, ':', m1, m2, ':', s1, s2, '.', f1, f2, f3] =>
    match digitsVal 0 [h1, h2], digitsVal 0 [m1, m2], digitsVal 0 [s1, s2],
        digitsVal 0 [f1, f2, f3] with
    | some h, some m, some s, some f => some (h, m, s, f)
    | _, _, _, _ => none
  | _ => none

/-- Milliseconds since midnight written by a time form; hour 24 is allowed only as
`24:00:00`. -/
def isoTime (cs : List Char) : Option Int :=
  match isoTimeFields cs with
  | some (h, m, s, f) =>
    if (h ≤ 23 ∧ m ≤ 59 ∧ s ≤ 59) ∨ (h = 24 ∧ m = 0 ∧ s = 0 ∧ f = 0) then
      some (h * msPerHour + m * 60000 + s * 1000 + f)
    else none
  | none => none

/-- Split a character list at its first `T`. -/
def splitAtT : List Char → Option (List Char × List Char)
  | [] => none
  | c :: cs =>
    if c = 'T' then some ([], cs)
    else (splitAtT cs).map (fun p => (c :: p.1, p.2))

/-! ## The local time zone -/

/-- The host time zone: a standard UTC offset in milliseconds and, optionally, one
daylight-saving period given by two local day numbers. Clocks are put forward one hour when
standard wall-clock time reaches 02:00 on the first day and put back when daylight
wall-clock time reaches 02:00 on the second. -/
structure TimeZone where
  standard : Int
  dst : Option (Int × Int)
  deriving DecidableEq, Repr

/-- Whether daylight-saving time is in force at the UTC instant `t`. -/
def TimeZone.inDst (tz : TimeZone) (t : Int) : Bool :=
  match tz.dst with
  | none => false
  | some (a, b) =>
    decide (a * msPerDay + 2 * msPerHour ≤ t + tz.standard ∧
      t + tz.standard < b * msPerDay + msPerHour)

/-- ECMAScript `LocalTime(t)`: the wall-clock reading at the UTC instant `t`. -/
def LocalTime (tz : TimeZone) (t : Int) : Int :=
  if tz.inDst t then t + tz.standard + msPerHour else t + tz.standard

/-- ECMAScript `UTC(t)`: the instant at which the wall clock reads `w`. A reading that
occurs twice denotes the earlier instant; a reading that is skipped is taken at the offset
in force before the change. -/
def UTC (tz : TimeZone) (w : Int) : Int :=
  if tz.inDst (w - tz.standard - msPerHour) then w - tz.standard - msPerHour
  else w - tz.standard

/-- Local day number of an instant: the calendar day `getFullYear`, `getMonth` and `getDate`
read off. -/
def localDay (tz : TimeZone) (t : Int) : Int := LocalTime tz t / msPerDay

/-- The largest time value a `Date` can hold, in milliseconds either side of the epoch. -/
def maxTime : Int := 8640000000000000

/-- ECMAScript `TimeClip`: a time value outside the range of `Date` makes the date invalid. -/
def timeClip (t : Int) : Option Int :=
  if -maxTime ≤ t ∧ t ≤ maxTime then some t else none

/-- The constructor `new Date(string)` on the ECMAScript date-time string format. A string
with a time part is local time; a date-only string is UTC. A text outside the format, which
includes a day that its month does not have, is an invalid date here: ECMAScript leaves such
texts to the engine, and some engines accept some of them. The theorems about due dates are
therefore stated for the values of a date input (`dateInputDay`). -/
def dateFromString (tz : TimeZone) (s : String) : Option Int :=
  match splitAtT s.data with
  | some (d, t) =>
    match isoDay (String.mk d), isoTime t with
    | some day, some ms => timeClip (UTC tz (day * msPerDay + ms))
    | _, _ => none
  | none => (isoDay s).bind (fun day => timeClip (day * msPerDay))

/-- The relation `a < b` on dates: false as soon as one side is an invalid date (NaN). -/
def dateLt : Option Int → Option Int → Bool
  | some a, some b => decide (a < b)
  | _, _ => false

/-! ## Tasks and the date classifier -/

/-- One todo object: `date` is `null` (absent) or the value of a date input. -/
structure Todo where
  id : String
  title : String
  date : Option String
  completed : Bool
  createdAt : Int
  deriving DecidableEq, Repr

/-- JavaScript truthiness of the `date` field: `null` and the empty string are falsy. -/
def Todo.hasDate (t : Todo) : Bool :=
  match t.date with
  | none => false
  | some s => truthy s

/-- The text of the `date` field as string concatenation sees it. -/
def Todo.dateText (t : Todo) : String :=
  match t.date with
  | none => "null"
  | some s => s

/-- `startOfDay(d)`: `new Date(d.getFullYear(), d.getMonth(), d.getDate(), 0,0,0,0)`. The
three getters read the local calendar day of `d`, and the constructor gives the local
midnight that opens that day, except that it takes a year from 0 to 99 as 1900 to 1999; the
result goes through `TimeClip`. An invalid date stays invalid. -/
def startOfDay (tz : TimeZone) (d : Option Int) : Option Int :=
  d.bind (fun t =>
    let day := localDay tz t
    let year := (civilFromDays day).1
    let day1 :=
      if 0 ≤ year ∧ year ≤ 99 then
        daysFromCivil (year + 1900) (civilFromDays day).2.1 (civilFromDays day).2.2
      else day
    timeClip (UTC tz (day1 * msPerDay)))

/-- `isOverdue(todo)` with the clock reading `now` made explicit. -/
def isOverdue (tz : TimeZone) (now : Int) (todo : Todo) : Bool :=
  if !todo.hasDate || todo.completed then false
  else
    let today : Option Int := some now
    let due := dateFromString tz (todo.dateText ++ "T23:59:59")
    dateLt due (startOfDay tz today)

/-- `isDueSoon(todo)` with the clock reading `now` made explicit. The quotient
`diff = (due - today) / 86400000` is compared with 0 and 2 exactly, by cross-multiplying. -/
def isDueSoon (tz : TimeZone) (now : Int) (todo : Todo) : Bool :=
  if !todo.hasDate || todo.completed then false
  else
    match startOfDay tz (some now),
        startOfDay tz (dateFromString tz (todo.dateText ++ "T00:00:00")) with
    | some today, some due =>
      decide (0 ≤ due - today ∧ due - today ≤ 2 * (1000 * 60 * 60 * 24))
    | _, _ => false

/-! ## `JSON.parse` -/

/-- A value `JSON.parse` can return. A number is kept as the exact decimal
`mantissa * 10 ^ exponent` it was written as, with no trailing zero in the mantissa (rounding
to a double is not modelled); the members of an object are kept in order of first
appearance (the place JavaScript gives to integer-like keys is not modelled). -/
inductive JSON where
  | null : JSON
  | bool (b : Bool) : JSON
  | num (mantissa exponent : Int) : JSON
  | str (s : String) : JSON
  | arr (items : List JSON) : JSON
  | obj (members : List (String × JSON)) : JSON
  deriving Repr

mutual
/-- Decide equality of JSON values. -/
def JSON.decEq : (a b : JSON) → Decidable (a = b)
  | .null, .null => isTrue rfl
  | .bool a, .bool b =>
    if h : a = b then isTrue (by rw [h]) else isFalse (fun e => h (by cases e; rfl))
  | .num a b, .num c d =>
    if h : a = c ∧ b = d then isTrue (by rw [h.1, h.2])
    else isFalse (fun e => h (by cases e; exact ⟨rfl, rfl⟩))
  | .str a, .str b =>
    if h : a = b then isTrue (by rw [h]) else isFalse (fun e => h (by cases e; rfl))
  | .arr a, .arr b =>
    match JSON.decEqList a b with
    | isTrue h => isTrue (by rw [h])
    | isFalse h => isFalse (fun e => h (by cases e; rfl))
  | .obj a, .obj b =>
    match JSON.decEqMembers a b with
    | isTrue h => isTrue (by rw [h])
    | isFalse h => isFalse (fun e => h (by cases e; rfl))
  | .null, .bool _ | .null, .num _ _ | .null, .str _ | .null, .arr _ | .null, .obj _
  | .bool _, .null | .bool _, .num _ _ | .bool _, .str _ | .bool _, .arr _ | .bool _, .obj _
  | .num _ _, .null | .num _ _, .bool _ | .num _ _, .str _ | .num _ _, .arr _ | .num _ _, .obj _
  | .str _, .null | .str _, .bool _ | .str _, .num _ _ | .str _, .arr _ | .str _, .obj _
  | .arr _, .null | .arr _, .bool _ | .arr _, .num _ _ | .arr _, .str _ | .arr _, .obj _
  | .obj _, .null | .obj _, .bool _ | .obj _, .num _ _ | .obj _, .str _ | .obj _, .arr _ =>
    isFalse (fun e => by cases e)
/-- Decide equality of lists of JSON values. -/
def JSON.decEqList : (a b : List JSON) → Decidable (a = b)
  | [], [] => isTrue rfl
  | a :: as, b :: bs =>
    match JSON.decEq a b, JSON.decEqList as bs with
    | isTrue h1, isTrue h2 => isTrue (by rw [h1, h2])
    | isFalse h1, _ => isFalse (fun e => h1 (by cases e; rfl))
    | _, isFalse h2 => isFalse (fun e => h2 (by cases e; rfl))
  | [], _ :: _ | _ :: _, [] => isFalse (fun e => by cases e)
/-- Decide equality of lists of object members. -/
def JSON.decEqMembers : (a b : List (String × JSON)) → Decidable (a = b)
  | [], [] => isTrue rfl
  | (k, a) :: as, (l, b) :: bs =>
    if hk : k = l then
      match JSON.decEq a b, JSON.decEqMembers as bs with
      | isTrue h1, isTrue h2 => isTrue (by rw [hk, h1, h2])
      | isFalse h1, _ => isFalse (fun e => h1 (by cases e; rfl))
      | _, isFalse h2 => isFalse (fun e => h2 (by cases e; rfl))
    else isFalse (fun e => hk (by cases e; rfl))
  | [], _ :: _ | _ :: _, [] => isFalse (fun e => by cases e)
end

instance : DecidableEq JSON := JSON.decEq

/-- Move trailing zeros of a mantissa into the exponent, at most `fuel` of them. -/
def stripZeros : Nat → Int → Int → Int × Int
  | 0, m, e => (m, e)
  | fuel + 1, m, e => if m ≠ 0 ∧ m % 10 = 0 then stripZeros fuel (m / 10) (e + 1) else (m, e)

/-- The number `m * 10 ^ e` as a JSON value. -/
def decimal (m e : Int) : JSON :=
  if m = 0 then JSON.num 0 0
  else JSON.num (stripZeros m.natAbs m e).1 (stripZeros m.natAbs m e).2

/-- Define a property of an object under construction: an existing key keeps its place and
takes the new value, a new key goes to the end. -/
def setMember (key : String) (value : JSON) : List (String × JSON) → List (String × JSON)
  | [] => [(key, value)]
  | (k, v) :: rest =>
    if k = key then (k, value) :: rest else (k, v) :: setMember key value rest

/-- The object built from the members of an object literal, read left to right. -/
def objectOf (members : List (String × JSON)) : JSON :=
  JSON.obj (members.foldl (fun acc kv => setMember kv.1 kv.2 acc) [])

/-- JSON white space. -/
def isJsonSpace (c : Char) : Bool :=
  c = ' ' || c = '\t' || c = '\n' || c = '\r'

/-- Skip JSON white space. -/
def skipWs : List Char → List Char
  | [] => []
  | c :: cs => if isJsonSpace c then skipWs cs else c :: cs

/-- Value of a hexadecimal digit. -/
def hexVal (c : Char) : Option Nat :=
  if 48 ≤ c.toNat ∧ c.toNat ≤ 57 then some (c.toNat - 48)
  else if 97 ≤ c.toNat ∧ c.toNat ≤ 102 then some (c.toNat - 87)
  else if 65 ≤ c.toNat ∧ c.toNat ≤ 70 then some (c.toNat - 55)
  else none

/-- Value of four hexadecimal digits. -/
def hexVal4 (a b c d : Char) : Option Nat :=
  match hexVal a, hexVal b, hexVal c, hexVal d with
  | some x, some y, some z, some w => some (x * 4096 + y * 256 + z * 16 + w)
  | _, _, _, _ => none

/-- The character a one-letter escape stands for. -/
def simpleEscape (c : Char) : Option Char :=
  if c = '"' then some '"'
  else if c = '\\' then some '\\'
  else if c = '/' then some '/'
  else if c = 'b' then some (Char.ofNat 0x08)
  else if c = 'f' then some (Char.ofNat 0x0C)
  else if c = 'n' then some (Char.ofNat 0x0A)
  else if c = 'r' then some (Char.ofNat 0x0D)
  else if c = 't' then some (Char.ofNat 0x09)
  else none

/-- What a pending high surrogate leaves behind when no low surrogate follows it: U+FFFD,
since a `String` cannot hold a lone surrogate. -/
def pendingChars (pending : Option Nat) : List Char :=
  match pending with
  | some _ => [Char.ofNat 0xFFFD]
  | none => []

/-- The characters of a string literal after its opening quote, and the input after its
closing quote. `pending` is the high surrogate of a `\u` escape just read, waiting for the
low surrogate that makes it one character. -/
def parseStringBody (pending : Option Nat) : List Char → Option (List Char × List Char)
  | [] => none
  | c :: cs =>
    if c = '"' then some (pendingChars pending, cs)
    else if c = '\\' then
      match cs with
      | [] => none
      | e :: rest =>
        if e = 'u' then
          match rest with
          | a :: b :: x :: d :: rest2 =>
            match hexVal4 a b x d with
            | none => none
            | some u =>
              if 0xDC00 ≤ u ∧ u ≤ 0xDFFF then
                match pending with
                | some hi =>
                  (parseStringBody none rest2).map (fun p =>
                    (Char.ofNat (0x10000 + (hi - 0xD800) * 0x400 + (u - 0xDC00)) :: p.1, p.2))
                | none =>
                  (parseStringBody none rest2).map (fun p => (Char.ofNat 0xFFFD :: p.1, p.2))
              else if 0xD800 ≤ u ∧ u ≤ 0xDBFF then
                (parseStringBody (some u) rest2).map (fun p => (pendingChars pending ++ p.1, p.2))
              else
                (parseStringBody none rest2).map (fun p =>
                  (pendingChars pending ++ Char.ofNat u :: p.1, p.2))
          | _ => none
        else
          match simpleEscape e with
          | some ch =>
            (parseStringBody none rest).map (fun p => (pendingChars pending ++ ch :: p.1, p.2))
          | none => none
    else if c.toNat < 0x20 then none
    else (parseStringBody none cs).map (fun p => (pendingChars pending ++ c :: p.1, p.2))

/-- The leading decimal digits of the input, and the input after them. -/
def takeDigits : List Char → List Char × List Char
  | [] => ([], [])
  | c :: cs =>
    if 48 ≤ c.toNat ∧ c.toNat ≤ 57 then ((c :: (takeDigits cs).1), (takeDigits cs).2)
    else ([], c :: cs)

/-- Value of a list of decimal digits. -/
def digitsNat (ds : List Char) : Nat := ds.foldl (fun acc c => 10 * acc + (c.toNat - 48)) 0

/-- The fraction part of a number: `.` and at least one digit, or nothing. -/
def parseFraction : List Char → Option (List Char × List Char)
  | '.' :: cs =>
    match takeDigits cs with
    | ([], _) => none
    | (ds, rest) => some (ds, rest)
  | cs => some ([], cs)

/-- The exponent part of a number: `e` or `E`, an optional sign and at least one digit, or
nothing. -/
def parseExponent (cs : List Char) : Option (Int × List Char) :=
  match cs with
  | [] => some (0, [])
  | c :: cs1 =>
    if c = 'e' ∨ c = 'E' then
      match cs1 with
      | '-' :: cs2 =>
        match takeDigits cs2 with
        | ([], _) => none
        | (ds, rest) => some (-(digitsNat ds : Int), rest)
      | '+' :: cs2 =>
        match takeDigits cs2 with
        | ([], _) => none
        | (ds, rest) => some ((digitsNat ds : Int), rest)
      | _ =>
        match takeDigits cs1 with
        | ([], _) => none
        | (ds, rest) => some ((digitsNat ds : Int), rest)
    else some (0, c :: cs1)

/-- A number without its sign: an integer part without a superfluous leading zero, then an
optional fraction and an optional exponent. -/
def parseUnsigned (cs : List Char) : Option ((Int × Int) × List Char) :=
  match takeDigits cs with
  | ([], _) => none
  | (d :: ds, rest) =>
    if d = '0' ∧ ds ≠ [] then none
    else
      match parseFraction rest with
      | none => none
      | some (fs, rest1) =>
        match parseExponent rest1 with
        | none => none
        | some (e, rest2) =>
          some (((digitsNat ((d :: ds) ++ fs) : Int), e - (fs.length : Int)), rest2)

/-- A JSON number at the head of the input. -/
def parseNumber : List Char → Option (JSON × List Char)
  | '-' :: cs => (parseUnsigned cs).map (fun p => (decimal (-p.1.1) p.1.2, p.2))
  | cs => (parseUnsigned cs).map (fun p => (decimal p.1.1 p.1.2, p.2))

/-- Drop a literal from the head of the input. -/
def dropLiteral (lit : List Char) (cs : List Char) : Option (List Char) :=
  if lit.isPrefixOf cs then some (cs.drop lit.length) else none

/-- A string, a literal name or a number at the head of the input. -/
def parseScalar : List Char → Option (JSON × List Char)
  | [] => none
  | c :: rest =>
    if c = '"' then (parseStringBody none rest).map (fun p => (JSON.str (String.mk p.1), p.2))
    else if c = 't' then (dropLiteral "true".data (c :: rest)).map (fun r => (JSON.bool true, r))
    else if c = 'f' then
      (dropLiteral "false".data (c :: rest)).map (fun r => (JSON.bool false, r))
    else if c = 'n' then (dropLiteral "null".data (c :: rest)).map (fun r => (JSON.null, r))
    else parseNumber (c :: rest)

mutual
/-- A JSON value at the head of the input, after optional white space; `fuel` bounds the
number of nested calls. -/
def parseValue : Nat → List Char → Option (JSON × List Char)
  | 0, _ => none
  | fuel + 1, cs =>
    match skipWs cs with
    | [] => none
    | c :: rest =>
      if c = '[' then
        match skipWs rest with
        | ']' :: rest1 => some (JSON.arr [], rest1)
        | _ => (parseElements fuel rest).map (fun p => (JSON.arr p.1, p.2))
      else if c = '\x7b' then
        match skipWs rest with
        | '\x7d' :: rest1 => some (JSON.obj [], rest1)
        | _ => (parseMembers fuel rest).map (fun p => (objectOf p.1, p.2))
      else parseScalar (c :: rest)
/-- The elements of a non-empty array up to and including the closing bracket. -/
def parseElements : Nat → List Char → Option (List JSON × List Char)
  | 0, _ => none
  | fuel + 1, cs =>
    match parseValue fuel cs with
    | none => none
    | some (v, rest) =>
      match skipWs rest with
      | ',' :: rest1 => (parseElements fuel rest1).map (fun p => (v :: p.1, p.2))
      | ']' :: rest1 => some ([v], rest1)
      | _ => none
/-- The members of a non-empty object up to and including the closing brace. -/
def parseMembers : Nat → List Char → Option (List (String × JSON) × List Char)
  | 0, _ => none
  | fuel + 1, cs =>
    match skipWs cs with
    | '"' :: rest =>
      match parseStringBody none rest with
      | none => none
      | some (key, rest1) =>
        match skipWs rest1 with
        | ':' :: rest2 =>
          match parseValue fuel rest2 with
          | none => none
          | some (v, rest3) =>
            match skipWs rest3 with
            | ',' :: rest4 =>
              (parseMembers fuel rest4).map (fun p => ((String.mk key, v) :: p.1, p.2))
            | '\x7d' :: rest4 => some ([(String.mk key, v)], rest4)
            | _ => none
        | _ => none
    | _ => none
end

/-- `JSON.parse(text)`: the value, or `none` where `JSON.parse` throws a `SyntaxError`. The
fuel is never used up, since every nested call is paid for by a character of the text
(`parseValue_fuel`). -/
def JSON.parse (text : String) : Option JSON :=
  match parseValue (text.length + 1) text.data with
  | some (v, rest) => if (skipWs rest).isEmpty then some v else none
  | none => none

/-- The value `JSON.parse` returns for the text of a todo object. -/
def Todo.toJSON (t : Todo) : JSON :=
  JSON.obj [("id", JSON.str t.id), ("title", JSON.str t.title),
    ("date", match t.date with
      | none => JSON.null
      | some d => JSON.str d),
    ("completed", JSON.bool t.completed), ("createdAt", decimal t.createdAt 0)]

/-- The value `JSON.parse` returns for the text of a list of todo objects. -/
def todosJSON (todos : List Todo) : JSON := JSON.arr (todos.map Todo.toJSON)

/-! ## `JSON.stringify` on the todo list -/

/-- Four lower-case hexadecimal digits of a code unit. -/
def hex4 (n : Nat) : List Char :=
  [Nat.digitChar (n / 4096 % 16), Nat.digitChar (n / 256 % 16), Nat.digitChar (n / 16 % 16),
    Nat.digitChar (n % 16)]

/-- How `JSON.stringify` writes one character inside a string literal (`QuoteJSONString`). -/
def escapeChar (c : Char) : List Char :=
  if c = '"' then ['\\', '"']
  else if c = '\\' then ['\\', '\\']
  else if c.toNat = 0x08 then ['\\', 'b']
  else if c.toNat = 0x0C then ['\\', 'f']
  else if c.toNat = 0x0A then ['\\', 'n']
  else if c.toNat = 0x0D then ['\\', 'r']
  else if c.toNat = 0x09 then ['\\', 't']
  else if c.toNat < 0x20 then '\\' :: 'u' :: hex4 c.toNat
  else [c]

/-- The characters of a string literal without the enclosing quotes. -/
def escapeChars : List Char → List Char
  | [] => []
  | c :: cs => escapeChar c ++ escapeChars cs

/-- A string as `JSON.stringify` writes it. -/
def quoteChars (s : String) : List Char := '"' :: (escapeChars s.data ++ ['"'])

/-- An integer as `JSON.stringify` writes it (plain decimal digits, as for every integer of
magnitude below 10^21). -/
def intChars (n : Int) : List Char :=
  match n with
  | Int.ofNat k => Nat.toDigits 10 k
  | Int.negSucc k => '-' :: Nat.toDigits 10 (k + 1)

/-- One todo object as `JSON.stringify` writes it: the own properties in creation order. -/
def todoChars (t : Todo) : List Char :=
  "\x7b\"id\":".data ++ quoteChars t.id ++
  ",\"title\":".data ++ quoteChars t.title ++
  ",\"date\":".data ++ (match t.date with
    | none => "null".data
    | some d => quoteChars d) ++
  ",\"completed\":".data ++ (if t.completed then "true".data else "false".data) ++
  ",\"createdAt\":".data ++ intChars t.createdAt ++ "\x7d".data

/-- The elements of an array, separated by commas. -/
def todosChars : List Todo → List Char
  | [] => []
  | [t] => todoChars t
  | t :: t2 :: ts => todoChars t ++ ',' :: todosChars (t2 :: ts)

/-- The text `JSON.stringify(todos)` for a list of todo objects. -/
def stringify (todos : List Todo) : String := String.mk ('[' :: (todosChars todos ++ [']']))

/-! ## `localStorage` -/

/-- The storage key of the script. -/
def KEY : String := "awesome_todos_v1"

/-- The `localStorage` of the page's origin: its entries and the number of characters the
browser lets the origin keep. -/
structure LocalStorage where
  entries : List (String × String)
  quota : Nat
  deriving DecidableEq, Repr

/-- Look a key up in a list of entries. -/
def lookupEntry (key : String) : List (String × String) → Option String
  | [] => none
  | (k, v) :: rest => if k = key then some v else lookupEntry key rest

/-- Replace the value of a key, or add the key at the end. -/
def putEntry (key value : String) : List (String × String) → List (String × String)
  | [] => [(key, value)]
  | (k, v) :: rest => if k = key then (k, value) :: rest else (k, v) :: putEntry key value rest

/-- Characters taken up by a list of entries. -/
def usedChars : List (String × String) → Nat
  | [] => 0
  | (k, v) :: rest => k.length + v.length + usedChars rest

/-- The method `localStorage.getItem`: `null` (absent) for a key never written. -/
def LocalStorage.getItem (ls : LocalStorage) (key : String) : Option String :=
  lookupEntry key ls.entries

/-- The method `localStorage.setItem`: it throws (`none`) when the new value does not fit
into the quota, and the storage is then left as it was. -/
def LocalStorage.setItem (ls : LocalStorage) (key value : String) : Option LocalStorage :=
  if usedChars (putEntry key value ls.entries) ≤ ls.quota then
    some { ls with entries := putEntry key value ls.entries }
  else none

/-! ## The page -/

/-- What the script reads from its surroundings during one event handler. -/
structure Env where
  /-- The host time zone. -/
  tz : TimeZone
  /-- The clock reading of `Date.now()` and `new Date()`. -/
  now : Int
  /-- The text `Math.random().toString(36).slice(2,9)` of the random draws, in order. -/
  random : Nat → String
  /-- The answer the user gives to a `confirm` dialog. -/
  confirm : Bool
  /-- The Unicode lower-case mapping behind `toLowerCase`. -/
  caseMap : String → String

/-- The script's variables and the parts of the document it reads and writes. -/
structure App where
  /-- The variable `todos`. -/
  todos : List Todo
  /-- The variable `editId`. -/
  editId : Option String
  /-- The browser's `localStorage`. -/
  storage : LocalStorage
  /-- The field `todoInput.value`. -/
  todoInput : String
  /-- The field `todoDate.value`. -/
  todoDate : String
  /-- The field `searchInput.value`. -/
  searchInput : String
  /-- The field `filterSelect.value`. -/
  filterSelect : String
  /-- The field `editTitle.value`. -/
  editTitle : String
  /-- The field `editDate.value`. -/
  editDate : String
  /-- The attribute `aria-hidden` of the edit modal. -/
  modalHidden : Bool
  /-- The todos whose cards are in the list element, top to bottom. -/
  shown : List Todo
  /-- The text of the stats element. -/
  stats : String
  /-- The messages shown by `alert`, latest first. -/
  alerts : List String
  /-- The messages written by `console.error`, latest first. -/
  errors : List String
  /-- Whether the last call of `focus` was on the title input. -/
  inputFocused : Bool
  deriving DecidableEq

/-- `String.prototype.toLowerCase`; the empty string has nothing to map. -/
def toLowerCase (env : Env) (s : String) : String :=
  if s.data.isEmpty then "" else env.caseMap s

/-- Whether `needle` occurs in `hay` as a contiguous run. -/
def includesChars (hay needle : List Char) : Bool :=
  match hay with
  | [] => needle.isEmpty
  | c :: cs => needle.isPrefixOf (c :: cs) || includesChars cs needle

/-- `String.prototype.includes`. -/
def includes (s q : String) : Bool := includesChars s.data q.data

/-- `cryptoRandomId()` at the `i`-th random draw. -/
def cryptoRandomId (env : Env) (i : Nat) : String := "t_" ++ env.random i

/-- `save()`: a failed write is caught and reported on the console. -/
def save (app : App) : App :=
  match app.storage.setItem KEY (stringify app.todos) with
  | some st => { app with storage := st }
  | none => { app with errors := "Failed saving todos" :: app.errors }

/-- `load()`: the value it assigns to `todos`. A missing or empty item and a text that
`JSON.parse` rejects give the empty array; any other text gives whatever it parses to. -/
def load (ls : LocalStorage) : JSON :=
  match ls.getItem KEY with
  | none => JSON.arr []
  | some raw =>
    if truthy raw then
      match JSON.parse raw with
      | some v => v
      | none => JSON.arr []
    else JSON.arr []

/-- The predicate `render` passes to `todos.filter`, for the lower-cased search text `q` and
the selected filter. -/
def renderKeeps (env : Env) (q filter : String) (t : Todo) : Bool :=
  if truthy q && !(includes (toLowerCase env t.title) q) then false
  else if filter = "active" && t.completed then false
  else if filter = "completed" && !t.completed then false
  else if filter = "overdue" then isOverdue env.tz env.now t
  else true

/-- `render()`: the cards and the stats line it leaves in the document. -/
def render (env : Env) (app : App) : App :=
  let q := toLowerCase env app.searchInput
  let filter := app.filterSelect
  let list := app.todos.filter (renderKeeps env q filter)
  { app with
    shown := list
    stats :=
      if list.length = 0 then
        (if app.todos.length ≠ 0 then "No matching todos — try different filters or search."
          else "No todos yet — add something awesome ✨")
      else toString list.length ++ " of " ++ toString app.todos.length ++ " todo(s)" }

/-- `handleAdd()`. -/
def handleAdd (env : Env) (app : App) : App :=
  let title := trim app.todoInput
  let date : Option String := if truthy app.todoDate then some app.todoDate else none
  if !truthy title then { app with inputFocused := true }
  else
    let newTodo : Todo :=
      { id := cryptoRandomId env 0, title := title, date := date, completed := false,
        createdAt := env.now }
    let app1 := render env (save { app with todos := newTodo :: app.todos })
    { app1 with todoInput := "", todoDate := "", inputFocused := true }

/-- Assign through the object that `todos.find` returns: the first element satisfying `p` is
replaced by its image under `f`. -/
def updateFirst (p : Todo → Bool) (f : Todo → Todo) : List Todo → List Todo
  | [] => []
  | t :: ts => if p t then f t :: ts else t :: updateFirst p f ts

/-- `toggleComplete(id)`. -/
def toggleComplete (env : Env) (id : String) (app : App) : App :=
  match app.todos.find? (fun x => x.id = id) with
  | none => app
  | some _ =>
    render env (save { app with
      todos := updateFirst (fun x => x.id = id) (fun t => { t with completed := !t.completed })
        app.todos })

/-- `removeTodo(id)`. -/
def removeTodo (env : Env) (id : String) (app : App) : App :=
  render env (save { app with todos := app.todos.filter (fun t => t.id ≠ id) })

/-- The click handler of a card's delete button. -/
def deleteClick (env : Env) (id : String) (app : App) : App :=
  if env.confirm then removeTodo env id app else app

/-- `clearCompleted()`. -/
def clearCompleted (env : Env) (app : App) : App :=
  if !app.todos.any (fun t => t.completed) then
    { app with alerts := "No completed todos to clear." :: app.alerts }
  else if !env.confirm then app
  else render env (save { app with todos := app.todos.filter (fun t => !t.completed) })

/-- `clearAll()`. -/
def clearAll (env : Env) (app : App) : App :=
  if app.todos.length = 0 then app
  else if !env.confirm then app
  else render env (save { app with todos := [] })

/-- `openEditModal(id)`; the delayed focus of the title field is not modelled. -/
def openEditModal (id : String) (app : App) : App :=
  match app.todos.find? (fun x => x.id = id) with
  | none => app
  | some t =>
    { app with
      editId := some id
      editTitle := t.title
      editDate := (match t.date with
        | some d => if truthy d then d else ""
        | none => "")
      modalHidden := false }

/-- `closeModal()`. -/
def closeModal (app : App) : App :=
  { app with modalHidden := true, editId := none }

/-- `saveEdit()`. -/
def saveEdit (env : Env) (app : App) : App :=
  match app.editId with
  | none => app
  | some eid =>
    if !truthy eid then app
    else
      match app.todos.find? (fun x => x.id = eid) with
      | none => app
      | some _ =>
        let newTitle := trim app.editTitle
        if !truthy newTitle then
          { app with alerts := "Title cannot be empty." :: app.alerts }
        else
          let date : Option String := if truthy app.editDate then some app.editDate else none
          render env (closeModal (save { app with
            todos := updateFirst (fun x => x.id = eid)
              (fun t => { t with title := newTitle, date := date }) app.todos }))

/-- The store operation `edit(id, newTitle, newDueDate)`: the modal is open on `id`, its two
fields hold the new values, and the save button is pressed. -/
def edit (env : Env) (id title date : String) (app : App) : App :=
  saveEdit env { app with editId := some id, editTitle := title, editDate := date }

/-- The store operation `add(title)`: the title is typed into the input and the add button
is pressed. -/
def add (env : Env) (title : String) (app : App) : App :=
  handleAdd env { app with todoInput := title }

/-- The condition a filter mode puts on a task, in the words of the specification: `active`
excludes completed tasks, `completed` excludes open ones, `overdue` keeps the overdue ones,
and `all` (like any other value) puts no condition. -/
def modeHolds (env : Env) (mode : String) (t : Todo) : Bool :=
  if mode = "active" then !t.completed
  else if mode = "completed" then t.completed
  else if mode = "overdue" then isOverdue env.tz env.now t
  else true

/-- Case-insensitive containment, in the words of the specification: the lower-cased search
text occurs in the lower-cased title as a contiguous run of characters. -/
def ContainsIgnoringCase (env : Env) (q title : String) : Prop :=
  (toLowerCase env q).data <:+: (toLowerCase env title).data

instance (env : Env) (q title : String) : Decidable (ContainsIgnoringCase env q title) := by
  unfold ContainsIgnoringCase
  infer_instance

/-- The view filter of the specification: the tasks that match the search text and satisfy
the mode, in the order of the collection. -/
def viewFilter (env : Env) (todos : List Todo) (q mode : String) : List Todo :=
  todos.filter (fun t => decide (ContainsIgnoringCase env q t.title) && modeHolds env mode t)

/-- The title invariant of the data model: no task has an empty or white-space-only title. -/
def TitlesOk (todos : List Todo) : Prop := ∀ t ∈ todos, isBlank t.title = false

/-- A page with nothing in it, in a zone without daylight-saving time. -/
def emptyApp : App :=
  { todos := [], editId := none, storage := { entries := [], quota := 5000000 },
    todoInput := "", todoDate := "", searchInput := "", filterSelect := "all",
    editTitle := "", editDate := "", modalHidden := true, shown := [], stats := "",
    alerts := [], errors := [], inputFocused := false }

/-- A page with two tasks: an open one due on 2025-10-31 and a completed one without a due
date. -/
def sampleApp : App :=
  { emptyApp with
    todos := [⟨"t_1", "Pay rent", some "2025-10-31", false, 1761900000000⟩,
      ⟨"t_2", "Call Ana", none, true, 1761800000000⟩] }

/-- An environment for evaluating examples: UTC, noon of 2025-11-01, ASCII case mapping. -/
def sampleEnv : Env :=
  { tz := { standard := 0, dst := none }, now := 1761998400000,
    random := fun i => String.mk ("k3x9q2".data ++ Nat.toDigits 10 i),
    confirm := true, caseMap := fun s => String.mk (s.data.map Char.toLower) }

/-! ## Start-up: `load()` and the seed block -/

/-- `addDaysISO(days)`: the clock reading moved by whole local days (`setDate`), written as
the first ten characters of `toISOString()`, which is the date in UTC. -/
def addDaysISO (env : Env) (days : Int) : String :=
  String.mk ((isoDateChars
    (UTC env.tz (LocalTime env.tz env.now + days * msPerDay) / msPerDay)).take 10)

/-- The array `seed` of the seed block. -/
def seed (env : Env) : List Todo :=
  [ { id := cryptoRandomId env 0, title := "Add a short task", date := none,
      completed := false, createdAt := env.now - 1000 },
    { id := cryptoRandomId env 1, title := "Finish hackathon submission",
      date := some (addDaysISO env 1), completed := false, createdAt := env.now - 2000 },
    { id := cryptoRandomId env 2, title := "Prepare slide deck",
      date := some (addDaysISO env (-1)), completed := false, createdAt := env.now - 3000 } ]

/-- The variable `todos` and the storage once the script has run to its end. -/
structure Started where
  todos : JSON
  storage : LocalStorage
  deriving DecidableEq

/-- Whether `getItem(KEY)` is truthy. -/
def hasStoredText (ls : LocalStorage) : Bool :=
  match ls.getItem KEY with
  | none => false
  | some raw => truthy raw

/-- The script from top to bottom, as far as `todos` and the storage go: `load()`, then the
seed block. The block is entered only for an empty array: a non-empty array has a truthy
`length`, and with anything that is not an array the first `render()` throws at
`todos.filter` before the block is reached. Inside the block `todos = seed; save()` runs when
`getItem(KEY)` is falsy. -/
def startup (env : Env) (ls : LocalStorage) : Started :=
  if load ls = JSON.arr [] then
    if !hasStoredText ls then
      match ls.setItem KEY (stringify (seed env)) with
      | some st => { todos := todosJSON (seed env), storage := st }
      | none => { todos := todosJSON (seed env), storage := ls }
    else { todos := JSON.arr [], storage := ls }
  else { todos := load ls, storage := ls }

/-- The integer a JSON number stands for when its exponent is not negative (0 for any other
value). -/
def integerValue : JSON → Int
  | JSON.num m e => m * 10 ^ e.toNat
  | _ => 0

/-- New York in 2025: five hours behind UTC, with daylight-saving time from 9 March to
2 November. -/
def newYork2025 : TimeZone :=
  { standard := -5 * msPerHour,
    dst := some (daysFromCivil 2025 3 9, daysFromCivil 2025 11 2) }

/-- Noon of Saturday 1 November 2025 in New York (16:00 UTC), the day before clocks are put
back. -/
def noonBeforeFallBack : Int := daysFromCivil 2025 11 1 * msPerDay + 16 * msPerHour

/-- An open task due on Monday 3 November 2025. -/
def dueMonday : Todo :=
  { id := "t_4fzk1qa", title := "File report", date := some "2025-11-03", completed := false,
    createdAt := 1761900000000 }

/-- A storage that already holds an empty list and has room for twenty characters. -/
def smallStorage : LocalStorage := { entries := [(KEY, "[]")], quota := 20 }

/-- A storage that was never written and accepts nothing, as in a browser that gives the
page no quota. -/
def noQuotaStorage : LocalStorage := { entries := [], quota := 0 }

/-- A storage whose item is valid JSON but not a list of todo objects: the one record lacks
every field but `id`. -/
def partialRecordStorage : LocalStorage :=
  { entries := [(KEY, "[\x7b\"id\":\"t_1\"\x7d]")], quota := 5000000 }


/-! ## Date parsing lemmas -/

theorem splitAtT_append_of_not_mem (cs rest : List Char) (h : 'T' ∉ cs) :
    splitAtT (cs ++ 'T' :: rest) = some (cs, rest) := by
  induction cs with
  | nil => simp [splitAtT]
  | cons c cs ih =>
    have hc : c ≠ 'T' := fun e => h (by simp [e])
    have hcs : 'T' ∉ cs := fun e => h (by simp [e])
    simp [splitAtT, hc, ih hcs]

theorem splitAtT_of_mem (cs : List Char) (h : 'T' ∈ cs) :
    ∃ a b, cs = a ++ 'T' :: b ∧ 'T' ∉ a := by
  induction cs with
  | nil => simp at h
  | cons c cs ih =>
    by_cases hc : c = 'T'
    · exact ⟨[], cs, by simp [hc], by simp⟩
    · have : 'T' ∈ cs := by
        rcases List.mem_cons.mp h with e | e
        · exact absurd e.symm hc
        · exact e
      obtain ⟨a, b, hab, ha⟩ := ih this
      refine ⟨c :: a, b, by simp [hab], ?_⟩
      intro hm
      rcases List.mem_cons.mp hm with e | e
      · exact hc e.symm
      · exact ha e

theorem digitVal_T : digitVal 'T' = none := by decide

theorem digitsVal_none_of_mem (cs : List Char) (acc : Int) (h : 'T' ∈ cs) :
    digitsVal acc cs = none := by
  induction cs generalizing acc with
  | nil => simp at h
  | cons c cs ih =>
    unfold digitsVal
    cases hd : digitVal c with
    | none => rfl
    | some v =>
      have hc : c ≠ 'T' := by
        intro e; rw [e, digitVal_T] at hd; cases hd
      have : 'T' ∈ cs := by
        rcases List.mem_cons.mp h with e | e
        · exact absurd e.symm hc
        · exact e
      simp [ih _ this]

theorem isoMonthDay_none_of_mem (cs : List Char) (h : 'T' ∈ cs) : isoMonthDay cs = none := by
  unfold isoMonthDay
  split
  · simp at h
  · rename_i m1 m2
    have : 'T' ∈ [m1, m2] := by simpa using h
    simp [digitsVal_none_of_mem _ _ this]
  · rename_i m1 m2 d1 d2
    have h2 : 'T' ∈ [m1, m2] ∨ 'T' ∈ [d1, d2] := by
      simp at h ⊢
      tauto
    rcases h2 with h2 | h2
    · simp [digitsVal_none_of_mem _ _ h2]
    · rw [digitsVal_none_of_mem _ _ h2]
      cases digitsVal 0 [m1, m2] <;> rfl
  · rfl

theorem isoDateFields_none_of_mem (cs : List Char) (h : 'T' ∈ cs) : isoDateFields cs = none := by
  unfold isoDateFields
  split
  · rename_i a b c d e f rest
    have h2 : 'T' ∈ [a, b, c, d, e, f] ∨ 'T' ∈ rest := by
      simp at h ⊢
      tauto
    rcases h2 with h2 | h2
    · simp [digitsVal_none_of_mem _ _ h2]
    · rw [isoMonthDay_none_of_mem _ h2]
      cases digitsVal 0 [a, b, c, d, e, f] <;> rfl
  · rename_i a b c d e f rest
    have h2 : 'T' ∈ [a, b, c, d, e, f] ∨ 'T' ∈ rest := by
      simp at h ⊢
      tauto
    rcases h2 with h2 | h2
    · simp [digitsVal_none_of_mem _ _ h2]
    · rw [isoMonthDay_none_of_mem _ h2]
      cases digitsVal 0 [a, b, c, d, e, f] <;> rfl
  · rename_i a b c d rest _ _
    have h2 : 'T' ∈ [a, b, c, d] ∨ 'T' ∈ rest := by
      simp at h ⊢
      tauto
    rcases h2 with h2 | h2
    · simp [digitsVal_none_of_mem _ _ h2]
    · rw [isoMonthDay_none_of_mem _ h2]
      cases digitsVal 0 [a, b, c, d] <;> rfl
  · rfl

theorem isoDay_none_of_mem (s : String) (h : 'T' ∈ s.data) : isoDay s = none := by
  unfold isoDay
  rw [isoDateFields_none_of_mem _ h]


theorem isoTimeFields_none_of_mem (cs : List Char) (h : 'T' ∈ cs) : isoTimeFields cs = none := by
  unfold isoTimeFields
  split
  · rename_i c1 c2 m1 m2
    have h2 : 'T' ∈ [c1, c2] ∨ 'T' ∈ [m1, m2] := by
      simp at h ⊢
      tauto
    rcases h2 with h2 | h2
    · simp [digitsVal_none_of_mem _ _ h2]
    · rw [digitsVal_none_of_mem _ _ h2]
      cases digitsVal 0 [c1, c2] <;> rfl
  · rename_i c1 c2 m1 m2 s1 s2
    have h2 : 'T' ∈ [c1, c2] ∨ 'T' ∈ [m1, m2] ∨ 'T' ∈ [s1, s2] := by
      simp at h ⊢
      tauto
    rcases h2 with h2 | h2 | h2
    · simp [digitsVal_none_of_mem _ _ h2]
    · rw [digitsVal_none_of_mem _ _ h2]
      cases digitsVal 0 [c1, c2] <;> rfl
    · rw [digitsVal_none_of_mem _ _ h2]
      cases digitsVal 0 [c1, c2] <;> cases digitsVal 0 [m1, m2] <;> rfl
  · rename_i c1 c2 m1 m2 s1 s2 f1 f2 f3
    have h2 : 'T' ∈ [c1, c2] ∨ 'T' ∈ [m1, m2] ∨ 'T' ∈ [s1, s2] ∨ 'T' ∈ [f1, f2, f3] := by
      simp at h ⊢
      tauto
    rcases h2 with h2 | h2 | h2 | h2
    · simp [digitsVal_none_of_mem _ _ h2]
    · rw [digitsVal_none_of_mem _ _ h2]
      cases digitsVal 0 [c1, c2] <;> rfl
    · rw [digitsVal_none_of_mem _ _ h2]
      cases digitsVal 0 [c1, c2] <;> cases digitsVal 0 [m1, m2] <;> rfl
    · rw [digitsVal_none_of_mem _ _ h2]
      cases digitsVal 0 [c1, c2] <;> cases digitsVal 0 [m1, m2] <;>
        cases digitsVal 0 [s1, s2] <;> rfl
  · rfl

theorem isoTime_none_of_mem (cs : List Char) (h : 'T' ∈ cs) : isoTime cs = none := by
  unfold isoTime
  rw [isoTimeFields_none_of_mem _ h]

/-! ## Calendar bounds -/

/-- From 1969 on, the year of a day number is not one the `Date` constructor remaps. -/
theorem civilFromDays_year_ge (z : Int) (h : -1 ≤ z) : 100 ≤ (civilFromDays z).1 := by
  unfold civilFromDays
  simp only
  split_ifs <;> omega

theorem digitVal_bounds (c : Char) (v : Int) (h : digitVal c = some v) : 0 ≤ v ∧ v ≤ 9 := by
  unfold digitVal at h
  split at h
  · cases h
    omega
  · cases h

theorem digitsVal_two (a b : Char) (v : Int) (h : digitsVal 0 [a, b] = some v) :
    0 ≤ v ∧ v ≤ 99 := by
  simp only [digitsVal] at h
  cases ha : digitVal a with
  | none => rw [ha] at h; cases h
  | some x =>
    cases hb : digitVal b with
    | none => rw [ha, hb] at h; cases h
    | some y =>
      rw [ha, hb] at h
      simp only [Option.some.injEq] at h
      have := digitVal_bounds a x ha
      have := digitVal_bounds b y hb
      omega

theorem digitsVal_four (a b c d : Char) (v : Int) (h : digitsVal 0 [a, b, c, d] = some v) :
    0 ≤ v ∧ v ≤ 9999 ∧ ∃ x, digitVal a = some x := by
  simp only [digitsVal] at h
  cases ha : digitVal a with
  | none => rw [ha] at h; cases h
  | some x =>
    cases hb : digitVal b with
    | none => rw [ha, hb] at h; cases h
    | some y =>
      cases hc : digitVal c with
      | none => rw [ha, hb, hc] at h; cases h
      | some z =>
        cases hd : digitVal d with
        | none => rw [ha, hb, hc, hd] at h; cases h
        | some w =>
          rw [ha, hb, hc, hd] at h
          simp only [Option.some.injEq] at h
          have := digitVal_bounds a x ha
          have := digitVal_bounds b y hb
          have := digitVal_bounds c z hc
          have := digitVal_bounds d w hd
          exact ⟨by omega, by omega, x, rfl⟩

theorem daysInMonth_le (y m : Int) : daysInMonth y m ≤ 31 := by
  unfold daysInMonth
  split_ifs <;> omega

theorem daysFromCivil_bounds (y m d : Int) (hy : 1 ≤ y ∧ y ≤ 9999) (hm : 1 ≤ m ∧ m ≤ 12)
    (hd : 1 ≤ d ∧ d ≤ 31) : -720000 ≤ daysFromCivil y m d ∧ daysFromCivil y m d ≤ 2940000 := by
  unfold daysFromCivil
  simp only
  split_ifs <;> omega

/-- Appending a time of day to the text of a date field: the result is a valid date exactly
when the text is a date-only form whose time value is in range, and then it is that
wall-clock time on that day. -/
theorem dateFromString_append (tz : TimeZone) (s : String) (t : List Char) (ms : Int)
    (ht : isoTime t = some ms) :
    dateFromString tz (s ++ String.mk ('T' :: t)) =
      (isoDay s).bind (fun day => timeClip (UTC tz (day * msPerDay + ms))) := by
  unfold dateFromString
  have hdata : (s ++ String.mk ('T' :: t)).data = s.data ++ 'T' :: t := by
    simp [String.data_append]
  rw [hdata]
  by_cases hs : 'T' ∈ s.data
  · obtain ⟨a, b, hab, ha⟩ := splitAtT_of_mem _ hs
    rw [hab, List.append_assoc, List.cons_append, splitAtT_append_of_not_mem _ _ ha]
    have : isoTime (b ++ 'T' :: t) = none := isoTime_none_of_mem _ (by simp)
    simp only [this]
    rw [isoDay_none_of_mem s hs]
    cases isoDay (String.mk a) <;> rfl
  · rw [splitAtT_append_of_not_mem _ _ hs]
    simp only [ht]
    cases h : isoDay s <;> simp [h]

theorem isoTime_endOfDay : isoTime "23:59:59".data = some 86399000 := by decide
theorem isoTime_midnight : isoTime "00:00:00".data = some 0 := by decide

theorem dateFromString_endOfDay (tz : TimeZone) (s : String) :
    dateFromString tz (s ++ "T23:59:59") =
      (isoDay s).bind (fun day => timeClip (UTC tz (day * msPerDay + 86399000))) :=
  dateFromString_append tz s "23:59:59".data 86399000 isoTime_endOfDay

theorem dateFromString_midnight (tz : TimeZone) (s : String) :
    dateFromString tz (s ++ "T00:00:00") =
      (isoDay s).bind (fun day => timeClip (UTC tz (day * msPerDay))) := by
  have := dateFromString_append tz s "00:00:00".data 0 isoTime_midnight
  simpa using this

/-- The value of a date input is a date-only form of the ECMAScript format, and its day
number is far inside the range of `Date`. -/
theorem dateInputDay_spec (s : String) (day : Int) (h : dateInputDay s = some day) :
    isoDay s = some day ∧ -720000 ≤ day ∧ day ≤ 2940000 := by
  unfold dateInputDay at h
  split at h
  · rename_i y1 y2 y3 y4 m1 m2 d1 d2 hdata
    cases hy : digitsVal 0 [y1, y2, y3, y4] with
    | none => rw [hy] at h; cases h
    | some y =>
      cases hm : digitsVal 0 [m1, m2] with
      | none => rw [hy, hm] at h; cases h
      | some m =>
        cases hd : digitsVal 0 [d1, d2] with
        | none => rw [hy, hm, hd] at h; cases h
        | some d =>
          rw [hy, hm, hd] at h
          simp only at h
          split at h
          · rename_i hv
            cases h
            obtain ⟨hy0, hy1, x, hx⟩ := digitsVal_four _ _ _ _ _ hy
            have hdm := daysInMonth_le y m
            refine ⟨?_, daysFromCivil_bounds y m d ⟨hv.1, hy1⟩ ⟨hv.2.1, hv.2.2.1⟩
              ⟨hv.2.2.2.1, by omega⟩⟩
            have hplus : y1 ≠ '+' := by
              intro e
              have hn : digitVal '+' = none := by decide
              rw [e, hn] at hx; cases hx
            have hminus : y1 ≠ '-' := by
              intro e
              have hn : digitVal '-' = none := by decide
              rw [e, hn] at hx; cases hx
            have hf : isoDateFields s.data = some (y, m, d) := by
              rw [hdata]
              unfold isoDateFields
              split
              · rename_i heq
                exact absurd (List.cons.inj heq).1 hplus
              · rename_i heq
                exact absurd (List.cons.inj heq).1 hminus
              · rename_i a b c e rest _ _ heq
                simp only [List.cons.injEq] at heq
                obtain ⟨e1, e2, e3, e4, e5⟩ := heq
                subst e1 e2 e3 e4 e5
                simp [hy, isoMonthDay, hm, hd]
              · rename_i hne
                exact absurd rfl (hne _ _ _ _ _)
            unfold isoDay
            rw [hf]
            simp only
            rw [if_pos ⟨hv.2.1, hv.2.2.1, hv.2.2.2.1, hv.2.2.2.2⟩]
          · cases h
  · cases h

/-! ## Time-zone arithmetic -/

theorem UTC_endOfDay_lt_iff (tz : TimeZone) (d t : Int) :
    UTC tz (d * msPerDay + 86399000) < UTC tz (t * msPerDay) ↔ d < t := by
  unfold UTC TimeZone.inDst msPerDay msPerHour
  rcases tz with ⟨std, dst⟩
  cases dst with
  | none => simp; omega
  | some p =>
    rcases p with ⟨a, b⟩
    simp only [decide_eq_true_eq]
    split_ifs <;> omega

theorem localDay_UTC_midnight (tz : TimeZone) (d : Int) :
    localDay tz (UTC tz (d * msPerDay)) = d := by
  unfold localDay LocalTime UTC TimeZone.inDst msPerDay msPerHour
  rcases tz with ⟨std, dst⟩
  cases dst with
  | none => simp
  | some p =>
    rcases p with ⟨a, b⟩
    simp only [decide_eq_true_eq]
    split_ifs <;> omega

theorem UTC_bounds (tz : TimeZone) (w : Int) :
    w - tz.standard - msPerHour ≤ UTC tz w ∧ UTC tz w ≤ w - tz.standard := by
  unfold UTC msPerHour
  split_ifs <;> omega

theorem localDay_ge (tz : TimeZone) (now : Int) (htz : -msPerDay ≤ tz.standard)
    (hnow : 0 ≤ now) : -1 ≤ localDay tz now := by
  unfold localDay LocalTime msPerDay msPerHour at *
  split_ifs <;> omega

/-- Every clock reading from 1970 on has a local year that the `Date` constructor does not
remap. -/
theorem localYear_of_clock (tz : TimeZone) (now : Int) (htz : -msPerDay ≤ tz.standard)
    (hnow : 0 ≤ now) :
    ¬ (0 ≤ (civilFromDays (localDay tz now)).1 ∧ (civilFromDays (localDay tz now)).1 ≤ 99) := by
  have h := civilFromDays_year_ge _ (localDay_ge tz now htz hnow)
  omega

/-- The local midnight that opens the day of `now` is not after `now` and less than 25 hours
before it. -/
theorem UTC_localDay_bounds (tz : TimeZone) (now : Int) :
    now - msPerDay - msPerHour ≤ UTC tz (localDay tz now * msPerDay) ∧
      UTC tz (localDay tz now * msPerDay) ≤ now := by
  unfold localDay LocalTime UTC TimeZone.inDst msPerDay msPerHour
  rcases tz with ⟨std, dst⟩
  cases dst with
  | none => simp; omega
  | some p =>
    rcases p with ⟨a, b⟩
    simp only [decide_eq_true_eq]
    split_ifs <;> omega

theorem timeClip_of_bounds (t : Int) (h1 : -maxTime ≤ t) (h2 : t ≤ maxTime) :
    timeClip t = some t := by
  unfold timeClip
  rw [if_pos ⟨h1, h2⟩]

/-- When the local year of `t` is not one of 0 to 99 and the local midnight is in the range
of `Date`, `startOfDay` is the local midnight that opens the day of `t`. -/
theorem startOfDay_of_year (tz : TimeZone) (t : Int)
    (hyear : ¬ (0 ≤ (civilFromDays (localDay tz t)).1 ∧ (civilFromDays (localDay tz t)).1 ≤ 99))
    (h1 : -maxTime ≤ UTC tz (localDay tz t * msPerDay))
    (h2 : UTC tz (localDay tz t * msPerDay) ≤ maxTime) :
    startOfDay tz (some t) = some (UTC tz (localDay tz t * msPerDay)) := by
  unfold startOfDay
  simp only [Option.some_bind]
  rw [if_neg hyear]
  exact timeClip_of_bounds _ h1 h2

/-- The same for the clock reading: two days of margin at the lower end of the range of
`Date` keep the midnight in range. -/
theorem startOfDay_now (tz : TimeZone) (now : Int)
    (hnow : -maxTime + 2 * msPerDay ≤ now ∧ now ≤ maxTime)
    (hyear : ¬ (0 ≤ (civilFromDays (localDay tz now)).1 ∧
      (civilFromDays (localDay tz now)).1 ≤ 99)) :
    startOfDay tz (some now) = some (UTC tz (localDay tz now * msPerDay)) := by
  have hb := UTC_localDay_bounds tz now
  apply startOfDay_of_year tz now hyear
  · unfold msPerDay msPerHour at *; omega
  · omega

/-- The last second of the day of a date input is a valid date. -/
theorem timeClip_endOfDay (tz : TimeZone) (day : Int)
    (htz : -msPerDay ≤ tz.standard ∧ tz.standard ≤ msPerDay)
    (hday : -720000 ≤ day ∧ day ≤ 2940000) :
    timeClip (UTC tz (day * msPerDay + 86399000)) =
      some (UTC tz (day * msPerDay + 86399000)) := by
  have hb := UTC_bounds tz (day * msPerDay + 86399000)
  apply timeClip_of_bounds <;> unfold maxTime msPerDay msPerHour at * <;> omega

/-- The midnight that opens the day of a date input is a valid date. -/
theorem timeClip_midnight (tz : TimeZone) (day : Int)
    (htz : -msPerDay ≤ tz.standard ∧ tz.standard ≤ msPerDay)
    (hday : -720000 ≤ day ∧ day ≤ 2940000) :
    timeClip (UTC tz (day * msPerDay)) = some (UTC tz (day * msPerDay)) := by
  have hb := UTC_bounds tz (day * msPerDay)
  apply timeClip_of_bounds <;> unfold maxTime msPerDay msPerHour at * <;> omega

theorem isoDay_empty : isoDay "" = none := by decide

theorem isoDay_truthy (s : String) (day : Int) (h : isoDay s = some day) : truthy s = true := by
  rcases s with ⟨cs⟩
  cases cs with
  | nil => rw [show (String.mk []) = "" from rfl, isoDay_empty] at h; cases h
  | cons c cs => rfl

/-! ## `isOverdue` -/

/-- The code of `isOverdue` on an open task whose due date is the value of a date input: it
compares the day numbers. -/
theorem isOverdue_dateInput (tz : TimeZone) (now : Int) (t : Todo) (s : String) (day : Int)
    (htz : -msPerDay ≤ tz.standard ∧ tz.standard ≤ msPerDay)
    (hnow : -maxTime + 2 * msPerDay ≤ now ∧ now ≤ maxTime)
    (hyear : ¬ (0 ≤ (civilFromDays (localDay tz now)).1 ∧
      (civilFromDays (localDay tz now)).1 ≤ 99))
    (hs : t.date = some s) (hd : dateInputDay s = some day) (hc : t.completed = false) :
    isOverdue tz now t = decide (day < localDay tz now) := by
  obtain ⟨hiso, hday⟩ := dateInputDay_spec s day hd
  have ht := isoDay_truthy s day hiso
  unfold isOverdue
  simp only [Todo.hasDate, Todo.dateText, hs, ht, hc, Bool.not_true, Bool.or_false,
    Bool.false_eq_true, if_false, dateFromString_endOfDay, hiso, Option.some_bind,
    timeClip_endOfDay tz day htz hday, startOfDay_now tz now hnow hyear, dateLt,
    UTC_endOfDay_lt_iff]

theorem isOverdue_no_date (tz : TimeZone) (now : Int) (t : Todo) (h : t.hasDate = false) :
    isOverdue tz now t = false := by
  unfold isOverdue
  simp [h]

theorem isOverdue_completed (tz : TimeZone) (now : Int) (t : Todo) (h : t.completed = true) :
    isOverdue tz now t = false := by
  unfold isOverdue
  simp [h]

/-- Claim C3: `isOverdue` is false without a due date and for a completed task; otherwise it
is true exactly when the due date's calendar day is strictly before the local calendar day
of `now`. A task due today is not overdue, an open task due yesterday is, and a completed
one never is. The due date is the value of a date input (`yyyy-mm-dd`, a day of the
calendar, year 0001 to 9999); the zone's standard offset is within a day of UTC; `now` is a
time value of `Date`, two days or more above the lower end of its range, whose local year is
not one of 0 to 99, which the `Date` constructor in `startOfDay` reads as 1900 to 1999. -/
theorem isOverdue_spec (tz : TimeZone) (now : Int) (t : Todo)
    (htz : -msPerDay ≤ tz.standard ∧ tz.standard ≤ msPerDay)
    (hnow : -maxTime + 2 * msPerDay ≤ now ∧ now ≤ maxTime)
    (hyear : ¬ (0 ≤ (civilFromDays (localDay tz now)).1 ∧
      (civilFromDays (localDay tz now)).1 ≤ 99)) :
    (t.date = none → isOverdue tz now t = false) ∧
    (t.date = some "" → isOverdue tz now t = false) ∧
    (t.completed = true → isOverdue tz now t = false) ∧
    (∀ s day, t.date = some s → dateInputDay s = some day →
      (isOverdue tz now t = true ↔ t.completed = false ∧ day < localDay tz now)) ∧
    (∀ s, t.date = some s → dateInputDay s = some (localDay tz now) →
      isOverdue tz now t = false) ∧
    (∀ s, t.date = some s → dateInputDay s = some (localDay tz now - 1) →
      isOverdue tz now t = !t.completed) := by
  have key : ∀ s day, t.date = some s → dateInputDay s = some day →
      (isOverdue tz now t = true ↔ t.completed = false ∧ day < localDay tz now) := by
    intro s day hs hd
    cases hc : t.completed with
    | true => simp [isOverdue_completed tz now t hc]
    | false => simp [isOverdue_dateInput tz now t s day htz hnow hyear hs hd hc]
  refine ⟨?_, ?_, isOverdue_completed tz now t, key, ?_, ?_⟩
  · intro h
    exact isOverdue_no_date tz now t (by simp [Todo.hasDate, h])
  · intro h
    exact isOverdue_no_date tz now t (by rw [Todo.hasDate, h]; rfl)
  · intro s hs hd
    cases hb : isOverdue tz now t with
    | false => rfl
    | true => exact absurd ((key s _ hs hd).mp hb).2 (lt_irrefl _)
  · intro s hs hd
    cases hc : t.completed with
    | true => exact isOverdue_completed tz now t hc
    | false => exact (key s _ hs hd).mpr ⟨hc, by omega⟩

/-! ## `isDueSoon` -/

/-- The code of `isDueSoon` on an open task whose due date is the value of a date input with
a year from 100 on: it measures the time elapsed between the two local midnights. -/
theorem isDueSoon_dateInput (tz : TimeZone) (now : Int) (t : Todo) (s : String) (day : Int)
    (htz : -msPerDay ≤ tz.standard ∧ tz.standard ≤ msPerDay)
    (hnow : -maxTime + 2 * msPerDay ≤ now ∧ now ≤ maxTime)
    (hyear : ¬ (0 ≤ (civilFromDays (localDay tz now)).1 ∧
      (civilFromDays (localDay tz now)).1 ≤ 99))
    (hs : t.date = some s) (hd : dateInputDay s = some day)
    (hdue : ¬ (0 ≤ (civilFromDays day).1 ∧ (civilFromDays day).1 ≤ 99))
    (hc : t.completed = false) :
    isDueSoon tz now t =
      decide (0 ≤ UTC tz (day * msPerDay) - UTC tz (localDay tz now * msPerDay) ∧
        UTC tz (day * msPerDay) - UTC tz (localDay tz now * msPerDay) ≤ 2 * msPerDay) := by
  obtain ⟨hiso, hday⟩ := dateInputDay_spec s day hd
  have ht := isoDay_truthy s day hiso
  have hclip := timeClip_midnight tz day htz hday
  have hdue2 : startOfDay tz (some (UTC tz (day * msPerDay))) =
      some (UTC tz (day * msPerDay)) := by
    have h := startOfDay_of_year tz (UTC tz (day * msPerDay))
    rw [localDay_UTC_midnight] at h
    have hb := UTC_bounds tz (day * msPerDay)
    apply h hdue <;> unfold maxTime msPerDay msPerHour at * <;> omega
  unfold isDueSoon
  simp only [Todo.hasDate, Todo.dateText, hs, ht, hc, Bool.not_true, Bool.or_false,
    Bool.false_eq_true, if_false, dateFromString_midnight, hiso, Option.some_bind,
    hclip, hdue2, startOfDay_now tz now hnow hyear]
  simp [msPerDay]

theorem isDueSoon_completed (tz : TimeZone) (now : Int) (t : Todo) (h : t.completed = true) :
    isDueSoon tz now t = false := by
  unfold isDueSoon
  simp [h]

/-- In a zone without daylight-saving time `isDueSoon` counts calendar days: for an open task
whose due date is the value of a date input with a year from 100 on, it is true exactly when
the due day is today, tomorrow or the day after. -/
theorem isDueSoon_fixed_offset (off : Int) (now : Int) (t : Todo) (s : String) (day : Int)
    (htz : -msPerDay ≤ off ∧ off ≤ msPerDay)
    (hnow : -maxTime + 2 * msPerDay ≤ now ∧ now ≤ maxTime)
    (hyear : ¬ (0 ≤ (civilFromDays (localDay ⟨off, none⟩ now)).1 ∧
      (civilFromDays (localDay ⟨off, none⟩ now)).1 ≤ 99))
    (hs : t.date = some s) (hd : dateInputDay s = some day)
    (hdue : ¬ (0 ≤ (civilFromDays day).1 ∧ (civilFromDays day).1 ≤ 99))
    (hc : t.completed = false) :
    isDueSoon ⟨off, none⟩ now t = true ↔
      0 ≤ day - localDay ⟨off, none⟩ now ∧ day - localDay ⟨off, none⟩ now ≤ 2 := by
  rw [isDueSoon_dateInput ⟨off, none⟩ now t s day htz hnow hyear hs hd hdue hc]
  generalize localDay ⟨off, none⟩ now = T
  simp only [UTC, TimeZone.inDst, msPerDay, decide_eq_true_eq]
  simp only [Bool.false_eq_true, if_false]
  omega

/-! ## Trimming -/

theorem dropWhile_head_not (p : Char → Bool) (l : List Char) :
    l.dropWhile p = [] ∨ ∃ c rest, l.dropWhile p = c :: rest ∧ p c = false := by
  induction l with
  | nil => left; rfl
  | cons a l ih =>
    cases h : p a with
    | true => simpa [List.dropWhile, h] using ih
    | false => right; exact ⟨a, l, by simp [List.dropWhile, h], h⟩

/-- A non-empty result of `trim` is not blank: its last character is not white space. -/
theorem isBlank_trim (s : String) (h : truthy (trim s) = true) : isBlank (trim s) = false := by
  unfold isBlank trim trimChars at *
  unfold truthy at h
  simp only at h ⊢
  rcases dropWhile_head_not isTrimChar (List.dropWhile isTrimChar s.data).reverse with h0 | ⟨c, rest, h1, hc⟩
  · rw [h0] at h; simp at h
  · rw [h1]
    simp [hc]

theorem truthy_eq_false_iff (s : String) : truthy s = false ↔ s = "" := by
  rcases s with ⟨cs⟩
  cases cs with
  | nil => simp [truthy]
  | cons c cs =>
    simp [truthy]
    intro h
    have := congrArg String.data h
    simp at this

theorem dropWhile_eq_nil_of_all (p : Char → Bool) (l : List Char) (h : l.all p = true) :
    l.dropWhile p = [] := by
  induction l with
  | nil => rfl
  | cons a l ih =>
    simp only [List.all_cons, Bool.and_eq_true] at h
    simp [List.dropWhile, h.1, ih h.2]

/-- A blank string trims to the empty string. -/
theorem trim_of_isBlank (s : String) (h : isBlank s = true) : trim s = "" := by
  unfold trim trimChars
  unfold isBlank at h
  rw [dropWhile_eq_nil_of_all _ _ h]
  rfl

/-! ## What `save` and `render` leave alone -/

@[simp] theorem save_todos (app : App) : (save app).todos = app.todos := by
  unfold save; split <;> rfl

@[simp] theorem save_alerts (app : App) : (save app).alerts = app.alerts := by
  unfold save; split <;> rfl

@[simp] theorem save_editId (app : App) : (save app).editId = app.editId := by
  unfold save; split <;> rfl

@[simp] theorem render_todos (env : Env) (app : App) : (render env app).todos = app.todos := rfl

@[simp] theorem render_alerts (env : Env) (app : App) : (render env app).alerts = app.alerts := rfl

@[simp] theorem render_storage (env : Env) (app : App) :
    (render env app).storage = app.storage := rfl

@[simp] theorem closeModal_todos (app : App) : (closeModal app).todos = app.todos := rfl

/-! ## Adding -/

/-- Claim C1 as amended: when the typed title is not empty after trimming, `add` puts exactly
one new task in front of the collection, with the trimmed title and `completed = false`, and
keeps the earlier tasks unchanged and in order. -/
theorem add_nonblank (env : Env) (app : App) (t : String) (h : trim t ≠ "") :
    ∃ task : Todo, (add env t app).todos = task :: app.todos ∧
      task.title = trim t ∧ task.completed = false := by
  have ht : truthy (trim t) = true := by
    cases hb : truthy (trim t) with
    | true => rfl
    | false => exact absurd ((truthy_eq_false_iff _).mp hb) h
  refine ⟨⟨cryptoRandomId env 0, trim t, if truthy app.todoDate then some app.todoDate else none,
    false, env.now⟩, ?_, rfl, rfl⟩
  simp [add, handleAdd, ht]

/-- The amended claim C1 at a concrete input: adding " buy milk " to the page with two
tasks puts the new task in front of them. -/
theorem add_nonblank_witness :
    ∃ task : Todo, (add sampleEnv " buy milk " sampleApp).todos = task :: sampleApp.todos ∧
      task.title = trim " buy milk " ∧ task.completed = false :=
  add_nonblank sampleEnv sampleApp " buy milk " (by decide)

/-- Claim C1 as written fails for a title that is not empty but blank: with three spaces in
the input, `add` creates no task, and the page with two tasks still has exactly those two. -/
theorem add_blank_counterexample :
    "   " ≠ "" ∧ (add sampleEnv "   " sampleApp).todos = sampleApp.todos ∧
      ¬ ∃ task : Todo, (add sampleEnv "   " sampleApp).todos = task :: sampleApp.todos := by
  refine ⟨by decide, by decide, ?_⟩
  rintro ⟨task, h⟩
  have h2 : (add sampleEnv "   " sampleApp).todos = sampleApp.todos := by decide
  rw [h2] at h
  have h3 := congrArg List.length h
  simp at h3

/-! ## Toggling -/

theorem find_updateFirst_isSome (p : Todo → Bool) (f : Todo → Todo) (hf : ∀ t, p (f t) = p t)
    (l : List Todo) : ((updateFirst p f l).find? p).isSome = (l.find? p).isSome := by
  induction l with
  | nil => rfl
  | cons a l ih =>
    unfold updateFirst
    cases h : p a with
    | true => simp [List.find?, h, hf]
    | false => simp [List.find?, h, ih]

theorem updateFirst_updateFirst (p : Todo → Bool) (f : Todo → Todo) (hf : ∀ t, p (f t) = p t)
    (hinv : ∀ t, f (f t) = t) (l : List Todo) :
    updateFirst p f (updateFirst p f l) = l := by
  induction l with
  | nil => rfl
  | cons a l ih =>
    cases h : p a with
    | true => simp [updateFirst, h, hf, hinv]
    | false => simp [updateFirst, h, ih]

theorem updateFirst_of_find_none (p : Todo → Bool) (f : Todo → Todo) (l : List Todo)
    (h : l.find? p = none) : updateFirst p f l = l := by
  induction l with
  | nil => rfl
  | cons a l ih =>
    cases hp : p a with
    | true => simp [List.find?, hp] at h
    | false =>
      simp [List.find?, hp] at h
      simp only [updateFirst, hp, Bool.false_eq_true, if_false]
      rw [ih]
      simpa using h

/-- The collection after `toggleComplete(id)`: the first task with that id, if any, has its
flag flipped. -/
theorem toggleComplete_todos (env : Env) (id : String) (app : App) :
    (toggleComplete env id app).todos =
      updateFirst (fun x => x.id = id) (fun t => { t with completed := !t.completed })
        app.todos := by
  unfold toggleComplete
  cases h : app.todos.find? (fun x => decide (x.id = id)) with
  | none => simp [updateFirst_of_find_none _ _ _ h]
  | some t => simp

/-- Claim C5: toggling the same id twice gives back the collection, and toggling an id that
no task has changes nothing. -/
theorem toggleComplete_twice (env1 env2 : Env) (id : String) (app : App) :
    (toggleComplete env2 id (toggleComplete env1 id app)).todos = app.todos ∧
    ((∀ t ∈ app.todos, t.id ≠ id) → toggleComplete env1 id app = app) := by
  constructor
  · rw [toggleComplete_todos, toggleComplete_todos]
    apply updateFirst_updateFirst
    · intro t; rfl
    · intro t; cases t; simp
  · intro h
    unfold toggleComplete
    have : app.todos.find? (fun x => decide (x.id = id)) = none := by
      rw [List.find?_eq_none]
      intro t ht
      simpa using h t ht
    rw [this]

/-! ## Blank titles -/

theorem truthy_empty : truthy "" = false := rfl

/-- What `add` does with a title that is empty after trimming: the text stays in the input,
which gets the focus, and nothing else changes. -/
theorem add_blank_eq (env : Env) (app : App) (t : String) (h : trim t = "") :
    add env t app = { app with todoInput := t, inputFocused := true } := by
  simp [add, handleAdd, h, truthy_empty]

/-- Claim C9 as amended: with a title that is empty after trimming, `add` and `edit` leave the
collection and the storage unchanged. `add` shows no message; `edit` shows the message
"Title cannot be empty." when the id is not the empty string and is the id of a task of the
collection, and no message otherwise. -/
theorem blank_title_no_mutation (env : Env) (app : App) (id t d : String) (h : trim t = "") :
    (add env t app).todos = app.todos ∧ (add env t app).storage = app.storage ∧
    (add env t app).alerts = app.alerts ∧
    (edit env id t d app).todos = app.todos ∧ (edit env id t d app).storage = app.storage ∧
    (edit env id t d app).alerts =
      (if id ≠ "" ∧ ∃ x ∈ app.todos, x.id = id then "Title cannot be empty." :: app.alerts
        else app.alerts) := by
  rw [add_blank_eq env app t h]
  refine ⟨rfl, rfl, rfl, ?_⟩
  unfold edit saveEdit
  simp only
  cases hid : truthy id with
  | false =>
    have : id = "" := (truthy_eq_false_iff id).mp hid
    simp [this]
  | true =>
    have hne : id ≠ "" := by
      intro e; rw [e] at hid; cases hid
    cases hf : app.todos.find? (fun x => decide (x.id = id)) with
    | none =>
      have hno : ¬ ∃ x ∈ app.todos, x.id = id := by
        rintro ⟨x, hx, hxid⟩
        rw [List.find?_eq_none] at hf
        exact hf x hx (by simpa using hxid)
      simp [hno]
    | some x =>
      have hyes : ∃ x ∈ app.todos, x.id = id := by
        refine ⟨x, List.mem_of_find?_eq_some hf, ?_⟩
        simpa using List.find?_some hf
      simp [h, truthy_empty, hne, hyes]

/-- The amended claim C9 at concrete inputs, on the page with two tasks: three spaces as the
title of `add` and of `edit`. Editing the task `t_1` shows the message; editing under the id
`t_9`, which no task has, shows nothing. -/
theorem blank_title_no_mutation_witness :
    ((add sampleEnv "   " sampleApp).todos = sampleApp.todos ∧
      (add sampleEnv "   " sampleApp).storage = sampleApp.storage ∧
      (add sampleEnv "   " sampleApp).alerts = []) ∧
    ((edit sampleEnv "t_1" "   " "" sampleApp).todos = sampleApp.todos ∧
      (edit sampleEnv "t_1" "   " "" sampleApp).storage = sampleApp.storage ∧
      (edit sampleEnv "t_1" "   " "" sampleApp).alerts = ["Title cannot be empty."]) ∧
    ((edit sampleEnv "t_9" "   " "" sampleApp).todos = sampleApp.todos ∧
      (edit sampleEnv "t_9" "   " "" sampleApp).alerts = []) :=
  ⟨⟨(blank_title_no_mutation sampleEnv sampleApp "t_1" "   " "" (by decide)).1,
      (blank_title_no_mutation sampleEnv sampleApp "t_1" "   " "" (by decide)).2.1,
      (blank_title_no_mutation sampleEnv sampleApp "t_1" "   " "" (by decide)).2.2.1⟩,
    ⟨(blank_title_no_mutation sampleEnv sampleApp "t_1" "   " "" (by decide)).2.2.2.1,
      (blank_title_no_mutation sampleEnv sampleApp "t_1" "   " "" (by decide)).2.2.2.2.1,
      (blank_title_no_mutation sampleEnv sampleApp "t_1" "   " ""
        (by decide)).2.2.2.2.2.trans (by decide)⟩,
    ⟨(blank_title_no_mutation sampleEnv sampleApp "t_9" "   " "" (by decide)).2.2.2.1,
      (blank_title_no_mutation sampleEnv sampleApp "t_9" "   " ""
        (by decide)).2.2.2.2.2.trans (by decide)⟩⟩

/-- Claim C9 as written fails: `add` with a blank title shows no message at all, and `edit`
with a blank title shows none when no task has the id or when the id is the empty string,
even if a task has the empty string as its id. The page after `add("   ")` differs from the
page before only in the typed text and the focus. Only `edit` on a task that is there shows
the message. -/
theorem blank_title_counterexample :
    trim "   " = "" ∧
    add sampleEnv "   " sampleApp = { sampleApp with todoInput := "   ", inputFocused := true } ∧
    (add sampleEnv "   " sampleApp).alerts = [] ∧
    (edit sampleEnv "t_9" "   " "" sampleApp).alerts = [] ∧
    (edit sampleEnv "" "   " ""
      { sampleApp with todos := [⟨"", "old", none, false, 0⟩] }).alerts = [] ∧
    (edit sampleEnv "t_1" "   " "" sampleApp).alerts = ["Title cannot be empty."] := by
  decide

/-! ## The title invariant -/

theorem removeTodo_todos (env : Env) (id : String) (app : App) :
    (removeTodo env id app).todos = app.todos.filter (fun t => t.id ≠ id) := by
  simp [removeTodo]

theorem TitlesOk_filter (p : Todo → Bool) (l : List Todo) (h : TitlesOk l) :
    TitlesOk (l.filter p) := fun t ht => h t (List.mem_of_mem_filter ht)

theorem TitlesOk_updateFirst (p : Todo → Bool) (f : Todo → Todo) (l : List Todo)
    (h : TitlesOk l) (hf : ∀ t, isBlank t.title = false → isBlank (f t).title = false) :
    TitlesOk (updateFirst p f l) := by
  induction l with
  | nil => exact h
  | cons a l ih =>
    have ha : isBlank a.title = false := h a (by simp)
    have hl : TitlesOk l := fun t ht => h t (by simp [ht])
    unfold updateFirst
    split
    · intro t ht
      rcases List.mem_cons.mp ht with e | e
      · rw [e]; exact hf a ha
      · exact hl t e
    · intro t ht
      rcases List.mem_cons.mp ht with e | e
      · rw [e]; exact ha
      · exact ih hl t e

theorem handleAdd_TitlesOk (env : Env) (app : App) (h : TitlesOk app.todos) :
    TitlesOk (handleAdd env app).todos := by
  unfold handleAdd
  simp only
  cases ht : truthy (trim app.todoInput) with
  | false => simpa using h
  | true =>
    simp only [Bool.not_true, Bool.false_eq_true, if_false, render_todos, save_todos]
    intro t hmem
    rcases List.mem_cons.mp hmem with e | e
    · rw [e]; exact isBlank_trim _ ht
    · exact h t e

theorem saveEdit_TitlesOk (env : Env) (app : App) (h : TitlesOk app.todos) :
    TitlesOk (saveEdit env app).todos := by
  unfold saveEdit
  split
  · exact h
  · split
    · exact h
    · split
      · exact h
      · simp only
        cases ht : truthy (trim app.editTitle) with
        | false => simpa using h
        | true =>
          simp only [Bool.not_true, Bool.false_eq_true, if_false, render_todos,
            closeModal_todos, save_todos]
          exact TitlesOk_updateFirst _ _ _ h (fun t _ => isBlank_trim _ ht)

/-- Claim C10: if no task of the collection has an empty or white-space-only title, the same
holds after `add`, `edit`, `toggleComplete`, `remove`, `clearCompleted` and `clearAll`,
whatever their arguments, the answers to the confirm dialogs and the rest of the page. -/
theorem title_invariant (env : Env) (app : App) (id title date : String)
    (h : TitlesOk app.todos) :
    TitlesOk (add env title app).todos ∧
    TitlesOk (handleAdd env app).todos ∧
    TitlesOk (edit env id title date app).todos ∧
    TitlesOk (saveEdit env app).todos ∧
    TitlesOk (toggleComplete env id app).todos ∧
    TitlesOk (removeTodo env id app).todos ∧
    TitlesOk (deleteClick env id app).todos ∧
    TitlesOk (clearCompleted env app).todos ∧
    TitlesOk (clearAll env app).todos := by
  refine ⟨handleAdd_TitlesOk env _ h, handleAdd_TitlesOk env _ h, saveEdit_TitlesOk env _ h,
    saveEdit_TitlesOk env _ h, ?_, ?_, ?_, ?_, ?_⟩
  · rw [toggleComplete_todos]
    exact TitlesOk_updateFirst _ _ _ h (fun t ht => ht)
  · rw [removeTodo_todos]
    exact TitlesOk_filter _ _ h
  · unfold deleteClick
    split
    · rw [removeTodo_todos]
      exact TitlesOk_filter _ _ h
    · exact h
  · unfold clearCompleted
    split
    · exact h
    · split
      · exact h
      · simp only [render_todos, save_todos]
        exact TitlesOk_filter _ _ h
  · unfold clearAll
    split
    · exact h
    · split
      · exact h
      · intro t ht
        simp at ht

/-- Claim C10 at a concrete input: the sample page, whose two titles are not blank. -/
theorem title_invariant_witness :
    TitlesOk (add sampleEnv "  " sampleApp).todos ∧
    TitlesOk (handleAdd sampleEnv sampleApp).todos ∧
    TitlesOk (edit sampleEnv "t_1" "  " "" sampleApp).todos ∧
    TitlesOk (saveEdit sampleEnv sampleApp).todos ∧
    TitlesOk (toggleComplete sampleEnv "t_1" sampleApp).todos ∧
    TitlesOk (removeTodo sampleEnv "t_1" sampleApp).todos ∧
    TitlesOk (deleteClick sampleEnv "t_1" sampleApp).todos ∧
    TitlesOk (clearCompleted sampleEnv sampleApp).todos ∧
    TitlesOk (clearAll sampleEnv sampleApp).todos :=
  title_invariant sampleEnv sampleApp "t_1" "  " "" (by
    intro t ht
    have ht2 : t = ⟨"t_1", "Pay rent", some "2025-10-31", false, 1761900000000⟩ ∨
        t = ⟨"t_2", "Call Ana", none, true, 1761800000000⟩ := by
      simpa [sampleApp] using ht
    rcases ht2 with e | e <;> rw [e] <;> decide)

/-! ## The view filter -/

theorem includesChars_nil (hay : List Char) : includesChars hay [] = true := by
  cases hay <;> simp [includesChars]

theorem includesChars_iff (hay needle : List Char) :
    includesChars hay needle = true ↔ needle <:+: hay := by
  induction hay with
  | nil =>
    cases needle <;> simp [includesChars]
  | cons c cs ih =>
    unfold includesChars
    rw [Bool.or_eq_true, ih, List.infix_cons_iff, List.isPrefixOf_iff_prefix]

theorem truthy_of_not_includes (s q : String) (h : includes s q = false) : truthy q = true := by
  rcases q with ⟨cs⟩
  cases cs with
  | nil => simp [includes, includesChars_nil] at h
  | cons c cs => rfl

theorem renderKeeps_eq (env : Env) (q mode : String) (t : Todo) :
    renderKeeps env (toLowerCase env q) mode t =
      (decide (ContainsIgnoringCase env q t.title) && modeHolds env mode t) := by
  have hc : decide (ContainsIgnoringCase env q t.title) =
      includes (toLowerCase env t.title) (toLowerCase env q) := by
    rw [Bool.eq_iff_iff]
    simp only [decide_eq_true_eq, ContainsIgnoringCase, includes, includesChars_iff]
  rw [hc]
  unfold renderKeeps modeHolds
  cases hi : includes (toLowerCase env t.title) (toLowerCase env q) with
  | false => simp [truthy_of_not_includes _ _ hi]
  | true =>
    simp only [Bool.not_true, Bool.and_false, Bool.false_eq_true, if_false, Bool.true_and]
    by_cases h1 : mode = "active"
    · subst h1
      cases t.completed <;> simp
    · by_cases h2 : mode = "completed"
      · subst h2
        cases t.completed <;> simp
      · simp [h1, h2]

/-- Claim C2: the list `render` shows is the view filter of the specification: the tasks
whose title contains the search text case-insensitively and that satisfy the mode, in the
order of the collection. An empty search text matches every title, and with an empty search
text the mode `overdue` shows exactly the tasks for which `isOverdue` is true. -/
theorem render_shown (env : Env) (app : App) :
    (render env app).shown = viewFilter env app.todos app.searchInput app.filterSelect ∧
    (render env app).shown.Sublist app.todos ∧
    (∀ title, ContainsIgnoringCase env "" title) ∧
    (render env { app with searchInput := "", filterSelect := "overdue" }).shown =
      app.todos.filter (isOverdue env.tz env.now) := by
  have hshown : ∀ a : App, (render env a).shown =
      viewFilter env a.todos a.searchInput a.filterSelect := by
    intro a
    unfold render viewFilter
    simp only
    apply List.filter_congr
    intro t _
    exact renderKeeps_eq env a.searchInput a.filterSelect t
  have hempty : ∀ title, ContainsIgnoringCase env "" title := by
    intro title
    unfold ContainsIgnoringCase
    have : (toLowerCase env "").data = [] := rfl
    rw [this]
    exact List.nil_infix
  refine ⟨hshown app, ?_, hempty, ?_⟩
  · rw [hshown]
    exact List.filter_sublist _
  · rw [hshown]
    unfold viewFilter
    apply List.filter_congr
    intro t _
    simp [hempty, modeHolds]

/-! ## `JSON.parse` reads back what `JSON.stringify` writes: strings -/

theorem parseStringBody_quote (p : Option Nat) (cs : List Char) :
    parseStringBody p ('"' :: cs) = some (pendingChars p, cs) := by
  rw [parseStringBody.eq_def]
  simp

theorem parseStringBody_simple (e ch : Char) (rest : List Char) (he : e ≠ 'u')
    (hs : simpleEscape e = some ch) :
    parseStringBody none ('\\' :: e :: rest) =
      (parseStringBody none rest).map (fun p => (ch :: p.1, p.2)) := by
  rw [parseStringBody.eq_def]
  simp [he, hs, pendingChars]

theorem parseStringBody_unicode (a b x d : Char) (u : Nat) (rest : List Char)
    (hu : hexVal4 a b x d = some u) (h : u < 0xD800) :
    parseStringBody none ('\\' :: 'u' :: a :: b :: x :: d :: rest) =
      (parseStringBody none rest).map (fun p => (Char.ofNat u :: p.1, p.2)) := by
  rw [parseStringBody.eq_def]
  have hlo : ¬ (0xDC00 ≤ u ∧ u ≤ 0xDFFF) := by omega
  have hhi : ¬ (0xD800 ≤ u ∧ u ≤ 0xDBFF) := by omega
  simp [hu, hlo, hhi, pendingChars]

theorem parseStringBody_plain (c : Char) (cs : List Char) (h1 : c ≠ '"') (h2 : c ≠ '\\')
    (h3 : ¬ c.toNat < 0x20) :
    parseStringBody none (c :: cs) =
      (parseStringBody none cs).map (fun p => (c :: p.1, p.2)) := by
  rw [parseStringBody.eq_def]
  simp [h1, h2, h3, pendingChars]

theorem hexVal4_hex4 : ∀ n : Nat, n < 32 →
    hexVal4 (Nat.digitChar (n / 4096 % 16)) (Nat.digitChar (n / 256 % 16))
      (Nat.digitChar (n / 16 % 16)) (Nat.digitChar (n % 16)) = some n := by
  decide

theorem char_eq_of_toNat (c : Char) (n : Nat) (h : c.toNat = n) : Char.ofNat n = c := by
  rw [← h]
  exact Char.ofNat_toNat c

theorem parseStringBody_escapeChar (c : Char) (tail : List Char) (r : List Char × List Char)
    (h : parseStringBody none tail = some r) :
    parseStringBody none (escapeChar c ++ tail) = some (c :: r.1, r.2) := by
  unfold escapeChar
  by_cases h1 : c = '"'
  · rw [if_pos h1]
    subst h1
    simp only [List.cons_append, List.nil_append]
    rw [parseStringBody_simple _ '"' _ (by decide) (by decide), h]
    rfl
  rw [if_neg h1]
  by_cases h2 : c = '\\'
  · rw [if_pos h2]
    subst h2
    simp only [List.cons_append, List.nil_append]
    rw [parseStringBody_simple _ '\\' _ (by decide) (by decide), h]
    rfl
  rw [if_neg h2]
  by_cases h3 : c.toNat = 0x08
  · have := char_eq_of_toNat c _ h3
    rw [if_pos h3]
    simp only [List.cons_append, List.nil_append]
    rw [parseStringBody_simple _ (Char.ofNat 8) _ (by decide) (by decide), h, this]
    rfl
  rw [if_neg h3]
  by_cases h4 : c.toNat = 0x0C
  · have := char_eq_of_toNat c _ h4
    rw [if_pos h4]
    simp only [List.cons_append, List.nil_append]
    rw [parseStringBody_simple _ (Char.ofNat 12) _ (by decide) (by decide), h, this]
    rfl
  rw [if_neg h4]
  by_cases h5 : c.toNat = 0x0A
  · have := char_eq_of_toNat c _ h5
    rw [if_pos h5]
    simp only [List.cons_append, List.nil_append]
    rw [parseStringBody_simple _ (Char.ofNat 10) _ (by decide) (by decide), h, this]
    rfl
  rw [if_neg h5]
  by_cases h6 : c.toNat = 0x0D
  · have := char_eq_of_toNat c _ h6
    rw [if_pos h6]
    simp only [List.cons_append, List.nil_append]
    rw [parseStringBody_simple _ (Char.ofNat 13) _ (by decide) (by decide), h, this]
    rfl
  rw [if_neg h6]
  by_cases h7 : c.toNat = 0x09
  · have := char_eq_of_toNat c _ h7
    rw [if_pos h7]
    simp only [List.cons_append, List.nil_append]
    rw [parseStringBody_simple _ (Char.ofNat 9) _ (by decide) (by decide), h, this]
    rfl
  rw [if_neg h7]
  by_cases h8 : c.toNat < 0x20
  · have hx := hexVal4_hex4 c.toNat h8
    have hc := char_eq_of_toNat c _ rfl
    rw [if_pos h8]
    simp only [hex4, List.cons_append, List.nil_append]
    rw [parseStringBody_unicode _ _ _ _ _ _ hx (by omega), h, hc]
    rfl
  · rw [if_neg h8]
    simp only [List.cons_append, List.nil_append]
    rw [parseStringBody_plain c _ h1 h2 h8, h]
    rfl

/-- A string literal written by `JSON.stringify` is read back as the string. -/
theorem parseStringBody_escapeChars (cs rest : List Char) :
    parseStringBody none (escapeChars cs ++ '"' :: rest) = some (cs, rest) := by
  induction cs with
  | nil =>
    simp only [escapeChars, List.nil_append]
    rw [parseStringBody_quote]
    rfl
  | cons c cs ih =>
    rw [escapeChars, List.append_assoc]
    exact parseStringBody_escapeChar c _ _ ih

/-! ## Numbers -/

theorem digitChar_toNat : ∀ k : Nat, k < 10 → (Nat.digitChar k).toNat = 48 + k := by decide

theorem digitsNat_append_single (pre : List Char) (d : Char) :
    digitsNat (pre ++ [d]) = 10 * digitsNat pre + (d.toNat - 48) := by
  simp [digitsNat, List.foldl_append]

/-- The digits `Nat.toDigits` puts in front of its accumulator: decimal digits without a
superfluous leading zero, whose value is the number. -/
theorem toDigitsCore_spec (fuel : Nat) : ∀ (n : Nat) (acc : List Char), n < fuel →
    ∃ pre : List Char, Nat.toDigitsCore 10 fuel n acc = pre ++ acc ∧
      (∀ c ∈ pre, 48 ≤ c.toNat ∧ c.toNat ≤ 57) ∧ digitsNat pre = n ∧
      (∃ d ds, pre = d :: ds ∧ (d = '0' → ds = [])) := by
  induction fuel with
  | zero => intro n acc h; omega
  | succ fuel ih =>
    intro n acc hn
    unfold Nat.toDigitsCore
    simp only
    have hd := digitChar_toNat (n % 10) (Nat.mod_lt _ (by decide))
    by_cases h0 : n / 10 = 0
    · simp only [h0, if_true]
      refine ⟨[Nat.digitChar (n % 10)], rfl, ?_, ?_, ⟨_, [], rfl, fun _ => rfl⟩⟩
      · intro c hc
        simp only [List.mem_singleton] at hc
        rw [hc, hd]
        omega
      · simp only [digitsNat, List.foldl_cons, List.foldl_nil, hd]
        omega
    · simp only [h0, if_false]
      obtain ⟨pre, hpre, hall, hval, d, ds, hds, hz⟩ :=
        ih (n / 10) (Nat.digitChar (n % 10) :: acc) (by omega)
      refine ⟨pre ++ [Nat.digitChar (n % 10)], ?_, ?_, ?_, ?_⟩
      · rw [hpre]; simp
      · intro c hc
        rcases List.mem_append.mp hc with hc | hc
        · exact hall c hc
        · simp only [List.mem_singleton] at hc
          rw [hc, hd]
          omega
      · rw [digitsNat_append_single, hval, hd]
        omega
      · refine ⟨d, ds ++ [Nat.digitChar (n % 10)], by rw [hds]; rfl, ?_⟩
        intro hd0
        exfalso
        have hds0 := hz hd0
        rw [hds, hd0, hds0] at hval
        simp [digitsNat] at hval
        exact h0 hval.symm

theorem toDigits_spec (n : Nat) :
    (∀ c ∈ Nat.toDigits 10 n, 48 ≤ c.toNat ∧ c.toNat ≤ 57) ∧
      digitsNat (Nat.toDigits 10 n) = n ∧
      (∃ d ds, Nat.toDigits 10 n = d :: ds ∧ (d = '0' → ds = [])) := by
  obtain ⟨pre, hpre, h⟩ := toDigitsCore_spec (n + 1) n [] (by omega)
  unfold Nat.toDigits
  rw [hpre, List.append_nil]
  exact h

theorem takeDigits_append (ds : List Char) (r : Char) (rs : List Char)
    (hds : ∀ c ∈ ds, 48 ≤ c.toNat ∧ c.toNat ≤ 57) (hr : ¬ (48 ≤ r.toNat ∧ r.toNat ≤ 57)) :
    takeDigits (ds ++ r :: rs) = (ds, r :: rs) := by
  induction ds with
  | nil => simp [takeDigits, hr]
  | cons d ds ih =>
    have hd := hds d (by simp)
    have ih2 := ih (fun c hc => hds c (by simp [hc]))
    rw [List.cons_append, takeDigits]
    simp only [hd, and_self, if_true, ih2]

theorem parseUnsigned_toDigits (n : Nat) (r : Char) (rs : List Char)
    (hr : ¬ (48 ≤ r.toNat ∧ r.toNat ≤ 57)) (h1 : r ≠ '.') (h2 : r ≠ 'e') (h3 : r ≠ 'E') :
    parseUnsigned (Nat.toDigits 10 n ++ r :: rs) = some (((n : Int), 0), r :: rs) := by
  obtain ⟨hall, hval, d, ds, hds, hz⟩ := toDigits_spec n
  unfold parseUnsigned
  rw [takeDigits_append _ r rs hall hr, hds]
  simp only
  have hnz : ¬ (d = '0' ∧ ds ≠ []) := fun h => h.2 (hz h.1)
  rw [if_neg hnz]
  have hf : parseFraction (r :: rs) = some ([], r :: rs) := by
    unfold parseFraction
    split
    · rename_i cs heq
      exact absurd (List.cons.inj heq).1 h1
    · rfl
  have he : parseExponent (r :: rs) = some (0, r :: rs) := by
    unfold parseExponent
    simp [h2, h3]
  simp only [hf, he, List.append_nil, ← hds, hval]
  simp

theorem intChars_head (n : Int) : ∃ d ds, intChars n = d :: ds ∧
    ((48 ≤ d.toNat ∧ d.toNat ≤ 57) ∨ d = '-') := by
  cases n with
  | ofNat k =>
    obtain ⟨hall, _, d, ds, hds, _⟩ := toDigits_spec k
    refine ⟨d, ds, hds, Or.inl (hall d ?_)⟩
    rw [hds]; simp
  | negSucc k => exact ⟨'-', _, rfl, Or.inr rfl⟩

theorem parseNumber_intChars (n : Int) (r : Char) (rs : List Char)
    (hr : ¬ (48 ≤ r.toNat ∧ r.toNat ≤ 57)) (h1 : r ≠ '.') (h2 : r ≠ 'e') (h3 : r ≠ 'E') :
    parseNumber (intChars n ++ r :: rs) = some (decimal n 0, r :: rs) := by
  cases n with
  | ofNat k =>
    obtain ⟨hall, _, d, ds, hds, _⟩ := toDigits_spec k
    have hd : d ≠ '-' := by
      intro e
      have := hall d (by rw [hds]; simp)
      rw [e] at this
      revert this
      decide
    have hp := parseUnsigned_toDigits k r rs hr h1 h2 h3
    simp only [intChars]
    rw [hds] at hp ⊢
    simp only [List.cons_append] at hp ⊢
    unfold parseNumber
    split
    · rename_i cs heq
      exact absurd (List.cons.inj heq).1 hd
    · rw [hp]; rfl
  | negSucc k =>
    have hp := parseUnsigned_toDigits (k + 1) r rs hr h1 h2 h3
    simp only [intChars, List.cons_append]
    unfold parseNumber
    simp only [hp, Option.map_some']
    rfl

/-! ## Values -/

theorem skipWs_cons (c : Char) (cs : List Char) (h : isJsonSpace c = false) :
    skipWs (c :: cs) = c :: cs := by
  simp [skipWs, h]

theorem parseValue_string (fuel : Nat) (s : String) (rest : List Char) :
    parseValue (fuel + 1) (quoteChars s ++ rest) = some (JSON.str s, rest) := by
  unfold quoteChars
  rw [parseValue]
  simp only [List.cons_append, List.append_assoc, skipWs_cons '"' _ (by decide)]
  simp only [show ('"' : Char) ≠ '[' by decide, show ('"' : Char) ≠ '\x7b' by decide, if_false,
    parseScalar, if_true, parseStringBody_escapeChars, Option.map_some', List.nil_append]

theorem parseValue_null (fuel : Nat) (rest : List Char) :
    parseValue (fuel + 1) ("null".data ++ rest) = some (JSON.null, rest) := by
  rw [parseValue]
  simp [skipWs_cons, isJsonSpace, dropLiteral, parseScalar]

theorem parseValue_true (fuel : Nat) (rest : List Char) :
    parseValue (fuel + 1) ("true".data ++ rest) = some (JSON.bool true, rest) := by
  rw [parseValue]
  simp [skipWs_cons, isJsonSpace, dropLiteral, parseScalar]

theorem parseValue_false (fuel : Nat) (rest : List Char) :
    parseValue (fuel + 1) ("false".data ++ rest) = some (JSON.bool false, rest) := by
  rw [parseValue]
  simp [skipWs_cons, isJsonSpace, dropLiteral, parseScalar]

theorem parseValue_int (fuel : Nat) (n : Int) (r : Char) (rs : List Char)
    (hr : ¬ (48 ≤ r.toNat ∧ r.toNat ≤ 57)) (h1 : r ≠ '.') (h2 : r ≠ 'e') (h3 : r ≠ 'E') :
    parseValue (fuel + 1) (intChars n ++ r :: rs) = some (decimal n 0, r :: rs) := by
  have hp := parseNumber_intChars n r rs hr h1 h2 h3
  obtain ⟨d, ds, hds, hd⟩ := intChars_head n
  rw [hds] at hp ⊢
  simp only [List.cons_append] at hp ⊢
  have hsp : isJsonSpace d = false := by
    rcases hd with hd | hd
    · unfold isJsonSpace
      have a1 : d ≠ ' ' := by intro e; rw [e] at hd; revert hd; decide
      have a2 : d ≠ '\t' := by intro e; rw [e] at hd; revert hd; decide
      have a3 : d ≠ '\n' := by intro e; rw [e] at hd; revert hd; decide
      have a4 : d ≠ '\r' := by intro e; rw [e] at hd; revert hd; decide
      simp [a1, a2, a3, a4]
    · rw [hd]; decide
  have b1 : d ≠ '[' := by
    intro e; rw [e] at hd; revert hd; decide
  have b2 : d ≠ '\x7b' := by
    intro e; rw [e] at hd; revert hd; decide
  have b3 : d ≠ '"' := by
    intro e; rw [e] at hd; revert hd; decide
  have b4 : d ≠ 't' := by
    intro e; rw [e] at hd; revert hd; decide
  have b5 : d ≠ 'f' := by
    intro e; rw [e] at hd; revert hd; decide
  have b6 : d ≠ 'n' := by
    intro e; rw [e] at hd; revert hd; decide
  rw [parseValue]
  simp only [skipWs_cons d _ hsp, parseScalar, b1, b2, b3, b4, b5, b6, if_false, hp]

/-! ## Objects and arrays -/

theorem parseMembers_cons (fuel : Nat) (k tail rest final : List Char) (v : JSON)
    (ms : List (String × JSON)) (hk : escapeChars k = k)
    (hv : parseValue fuel tail = some (v, ',' :: rest))
    (hms : parseMembers fuel rest = some (ms, final)) :
    parseMembers (fuel + 1) ('"' :: (k ++ '"' :: ':' :: tail)) =
      some ((String.mk k, v) :: ms, final) := by
  have hs := parseStringBody_escapeChars k (':' :: tail)
  rw [hk] at hs
  rw [parseMembers]
  simp only [skipWs_cons '"' _ (by decide), hs, skipWs_cons ':' _ (by decide), hv,
    skipWs_cons ',' _ (by decide), hms, Option.map_some']

theorem parseMembers_last (fuel : Nat) (k tail final : List Char) (v : JSON)
    (hk : escapeChars k = k) (hv : parseValue fuel tail = some (v, '\x7d' :: final)) :
    parseMembers (fuel + 1) ('"' :: (k ++ '"' :: ':' :: tail)) =
      some ([(String.mk k, v)], final) := by
  have hs := parseStringBody_escapeChars k (':' :: tail)
  rw [hk] at hs
  rw [parseMembers]
  simp only [skipWs_cons '"' _ (by decide), hs, skipWs_cons ':' _ (by decide), hv,
    skipWs_cons '\x7d' _ (by decide)]

theorem parseValue_object (fuel : Nat) (more final : List Char) (ms : List (String × JSON))
    (h : parseMembers fuel ('"' :: more) = some (ms, final)) :
    parseValue (fuel + 1) ('\x7b' :: '"' :: more) = some (objectOf ms, final) := by
  rw [parseValue]
  simp only [skipWs_cons '\x7b' _ (by decide), skipWs_cons '"' _ (by decide),
    show ('\x7b' : Char) ≠ '[' by decide, if_false, if_true, h, Option.map_some']
  split
  · rename_i rest1 heq
    exact absurd (List.cons.inj heq).1 (by decide)
  · rfl

/-- The text of one todo object is read back as the object. -/
theorem parseValue_todo (g : Nat) (t : Todo) (rest : List Char) :
    parseValue (g + 7) (todoChars t ++ rest) = some (t.toJSON, rest) := by
  have v5 : parseValue (g + 1) (intChars t.createdAt ++ '\x7d' :: rest) =
      some (decimal t.createdAt 0, '\x7d' :: rest) :=
    parseValue_int g t.createdAt '\x7d' rest (by decide) (by decide) (by decide) (by decide)
  have m5 := parseMembers_last (g + 1) "createdAt".data _ _ _ (by decide) v5
  have v4 : parseValue (g + 2)
      ((if t.completed then "true".data else "false".data) ++
        ',' :: '"' :: ("createdAt".data ++ '"' :: ':' :: (intChars t.createdAt ++ '\x7d' :: rest))) =
      some (JSON.bool t.completed,
        ',' :: '"' :: ("createdAt".data ++ '"' :: ':' :: (intChars t.createdAt ++ '\x7d' :: rest))) := by
    cases t.completed
    · exact parseValue_false _ _
    · exact parseValue_true _ _
  have m4 := parseMembers_cons (g + 2) "completed".data _ _ _ _ _ (by decide) v4 m5
  have v3 : ∀ tail : List Char, parseValue (g + 3)
      ((match t.date with
        | none => "null".data
        | some d => quoteChars d) ++ tail) =
      some ((match t.date with
        | none => JSON.null
        | some d => JSON.str d), tail) := by
    intro tail
    cases t.date with
    | none => exact parseValue_null _ _
    | some d => exact parseValue_string _ _ _
  have m3 := parseMembers_cons (g + 3) "date".data _ _ _ _ _ (by decide) (v3 _) m4
  have m2 := parseMembers_cons (g + 4) "title".data _ _ _ _ _ (by decide)
    (parseValue_string _ t.title _) m3
  have m1 := parseMembers_cons (g + 5) "id".data _ _ _ _ _ (by decide)
    (parseValue_string _ t.id _) m2
  have hobj := parseValue_object (g + 6) _ _ _ m1
  have hchars : todoChars t ++ rest =
      '\x7b' :: '"' :: ("id".data ++ '"' :: ':' :: (quoteChars t.id ++
        ',' :: '"' :: ("title".data ++ '"' :: ':' :: (quoteChars t.title ++
        ',' :: '"' :: ("date".data ++ '"' :: ':' :: ((match t.date with
          | none => "null".data
          | some d => quoteChars d) ++
        ',' :: '"' :: ("completed".data ++ '"' :: ':' ::
          ((if t.completed then "true".data else "false".data) ++
        ',' :: '"' :: ("createdAt".data ++ '"' :: ':' ::
          (intChars t.createdAt ++ '\x7d' :: rest)))))))))) := by
    simp [todoChars]
  rw [hchars, hobj]
  simp [objectOf, setMember, Todo.toJSON]

theorem todoChars_head (t : Todo) :
    ∃ more, todoChars t = '\x7b' :: '"' :: 'i' :: 'd' :: '"' :: ':' :: more := by
  exact ⟨_, by simp [todoChars]; rfl⟩

theorem todosChars_head (ts : List Todo) (h : ts ≠ []) :
    ∃ more, todosChars ts = '\x7b' :: '"' :: more := by
  match ts, h with
  | [t], _ =>
    obtain ⟨more, hm⟩ := todoChars_head t
    exact ⟨_, by rw [todosChars, hm]⟩
  | t :: t2 :: rest, _ =>
    obtain ⟨more, hm⟩ := todoChars_head t
    exact ⟨_, by rw [todosChars, hm]; rfl⟩

theorem todosChars_length (ts : List Todo) (h : ts ≠ []) :
    ts.length + 5 ≤ (todosChars ts).length := by
  induction ts with
  | nil => exact absurd rfl h
  | cons t ts ih =>
    obtain ⟨more, hm⟩ := todoChars_head t
    cases ts with
    | nil => rw [todosChars, hm]; simp
    | cons t2 ts =>
      have := ih (by simp)
      rw [todosChars, hm]
      simp only [List.length_cons, List.length_append, List.cons_append] at this ⊢
      omega

/-- The text of the elements of a non-empty array of todo objects is read back as the
objects. -/
theorem parseElements_todos (g : Nat) (ts : List Todo) (h : ts ≠ []) (rest : List Char) :
    parseElements (g + 7 + ts.length) (todosChars ts ++ ']' :: rest) =
      some (ts.map Todo.toJSON, rest) := by
  induction ts with
  | nil => exact absurd rfl h
  | cons t ts ih =>
    cases ts with
    | nil =>
      have hv := parseValue_todo g t (']' :: rest)
      simp only [todosChars, List.length_singleton, List.map_cons, List.map_nil]
      rw [parseElements]
      simp only [hv, skipWs_cons ']' _ (by decide)]
    | cons t2 ts =>
      have hrest := ih (by simp)
      have hv := parseValue_todo (g + (t2 :: ts).length) t
        (',' :: (todosChars (t2 :: ts) ++ ']' :: rest))
      have e1 : g + 7 + (t :: t2 :: ts).length = (g + 7 + (t2 :: ts).length) + 1 := by
        simp only [List.length_cons]; omega
      have e2 : g + (t2 :: ts).length + 7 = g + 7 + (t2 :: ts).length := by omega
      rw [e2] at hv
      rw [e1, todosChars, List.append_assoc, List.cons_append, parseElements]
      simp only [hv, skipWs_cons ',' _ (by decide), hrest, Option.map_some', List.map_cons]

/-- Round trip of the encoding: `JSON.parse(JSON.stringify(todos))` is the list of the same
todo objects. -/
theorem parse_stringify (ts : List Todo) : JSON.parse (stringify ts) = some (todosJSON ts) := by
  unfold JSON.parse stringify todosJSON
  by_cases h : ts = []
  · subst h
    rfl
  · obtain ⟨more, hm⟩ := todosChars_head ts h
    have hlen := todosChars_length ts h
    have hfuel : (String.mk ('[' :: (todosChars ts ++ [']']))).length + 1 =
        ((todosChars ts).length - ts.length - 5 + 7 + ts.length) + 1 := by
      simp only [String.length, List.length_cons, List.length_append, List.length_nil]
      omega
    have he := parseElements_todos ((todosChars ts).length - ts.length - 5) ts h []
    simp only
    rw [hfuel, parseValue]
    simp only [skipWs_cons '[' _ (by decide), if_true]
    rw [hm] at he ⊢
    simp only [List.cons_append, skipWs_cons '\x7b' _ (by decide)] at he ⊢
    rw [he]
    rfl

/-! ## The fuel of `JSON.parse` never runs out -/

theorem skipWs_length_le (cs : List Char) : (skipWs cs).length ≤ cs.length := by
  induction cs with
  | nil => simp [skipWs]
  | cons c cs ih =>
    unfold skipWs
    split
    · simp only [List.length_cons]; omega
    · exact le_refl _

theorem takeDigits_length (cs : List Char) :
    (takeDigits cs).1.length + (takeDigits cs).2.length = cs.length := by
  induction cs with
  | nil => simp [takeDigits]
  | cons c cs ih =>
    unfold takeDigits
    split
    · simp only [List.length_cons]; omega
    · simp

theorem snd_of_map {α β : Type} (o : Option (α × List Char)) (g : α × List Char → β × List Char)
    (r : β × List Char) (h : o.map g = some r) (hg : ∀ q, (g q).2 = q.2) :
    ∃ q, o = some q ∧ q.2 = r.2 := by
  cases o with
  | none => simp at h
  | some q =>
    simp only [Option.map_some', Option.some.injEq] at h
    exact ⟨q, rfl, by rw [← h, hg]⟩

theorem parseStringBody_length (n : Nat) : ∀ (cs : List Char) (p : Option Nat)
    (r : List Char × List Char), cs.length ≤ n → parseStringBody p cs = some r →
    r.2.length < cs.length := by
  induction n with
  | zero =>
    intro cs p r hn h
    have : cs = [] := List.length_eq_zero.mp (by omega)
    subst this
    simp [parseStringBody] at h
  | succ n ih =>
    intro cs p r hn h
    rw [parseStringBody.eq_def] at h
    split at h
    · cases h
    · rename_i c cs1
      simp only [List.length_cons] at hn ⊢
      split at h
      · cases h; simp
      · split at h
        · split at h
          · cases h
          · rename_i e rest
            simp only [List.length_cons] at hn ⊢
            split at h
            · split at h
              · rename_i a b x d rest2
                simp only [List.length_cons] at hn ⊢
                split at h
                · cases h
                · split at h
                  · split at h
                    · obtain ⟨q, hq, hq2⟩ := snd_of_map _ _ _ h (fun _ => rfl)
                      have hq3 := congrArg List.length hq2
                      have := ih _ _ _ (by omega) hq
                      omega
                    · obtain ⟨q, hq, hq2⟩ := snd_of_map _ _ _ h (fun _ => rfl)
                      have hq3 := congrArg List.length hq2
                      have := ih _ _ _ (by omega) hq
                      omega
                  · split at h
                    · obtain ⟨q, hq, hq2⟩ := snd_of_map _ _ _ h (fun _ => rfl)
                      have hq3 := congrArg List.length hq2
                      have := ih _ _ _ (by omega) hq
                      omega
                    · obtain ⟨q, hq, hq2⟩ := snd_of_map _ _ _ h (fun _ => rfl)
                      have hq3 := congrArg List.length hq2
                      have := ih _ _ _ (by omega) hq
                      omega
              · cases h
            · split at h
              · obtain ⟨q, hq, hq2⟩ := snd_of_map _ _ _ h (fun _ => rfl)
                have hq3 := congrArg List.length hq2
                have := ih _ _ _ (by omega) hq
                omega
              · cases h
        · split at h
          · cases h
          · obtain ⟨q, hq, hq2⟩ := snd_of_map _ _ _ h (fun _ => rfl)
            have hq3 := congrArg List.length hq2
            have := ih _ _ _ (by omega) hq
            omega

theorem parseFraction_length (cs : List Char) (r : List Char × List Char)
    (h : parseFraction cs = some r) : r.2.length ≤ cs.length := by
  unfold parseFraction at h
  split at h
  · rename_i cs1
    have hl := takeDigits_length cs1
    split at h
    · cases h
    · rename_i ds rest _ heq
      cases h
      rw [heq] at hl
      simp only [List.length_cons] at hl ⊢
      omega
  · cases h
    exact le_refl _

theorem parseExponent_length (cs : List Char) (r : Int × List Char)
    (h : parseExponent cs = some r) : r.2.length ≤ cs.length := by
  unfold parseExponent at h
  split at h
  · cases h; simp
  · rename_i c cs1
    split at h
    · split at h
      · rename_i cs2
        have hl := takeDigits_length cs2
        split at h
        · cases h
        · rename_i ds rest _ heq
          cases h
          rw [heq] at hl
          simp only [List.length_cons] at hl ⊢
          omega
      · rename_i cs2
        have hl := takeDigits_length cs2
        split at h
        · cases h
        · rename_i ds rest _ heq
          cases h
          rw [heq] at hl
          simp only [List.length_cons] at hl ⊢
          omega
      · have hl := takeDigits_length cs1
        split at h
        · cases h
        · rename_i ds rest _ heq
          cases h
          rw [heq] at hl
          simp only [List.length_cons] at hl ⊢
          omega
    · cases h
      exact le_refl _

theorem parseUnsigned_length (cs : List Char) (r : (Int × Int) × List Char)
    (h : parseUnsigned cs = some r) : r.2.length < cs.length := by
  unfold parseUnsigned at h
  have hl := takeDigits_length cs
  split at h
  · cases h
  · rename_i d ds rest heq
    rw [heq] at hl
    simp only [List.length_cons] at hl
    split at h
    · cases h
    · split at h
      · cases h
      · rename_i fs rest1 hf
        have h1 := parseFraction_length _ _ hf
        split at h
        · cases h
        · rename_i e rest2 he
          have h2 := parseExponent_length _ _ he
          cases h
          simp only at h1 h2 ⊢
          omega

theorem parseNumber_length (cs : List Char) (r : JSON × List Char)
    (h : parseNumber cs = some r) : r.2.length < cs.length := by
  unfold parseNumber at h
  split at h
  · obtain ⟨q, hq, hq2⟩ := snd_of_map _ _ _ h (fun _ => rfl)
    have hq3 := congrArg List.length hq2
    have := parseUnsigned_length _ _ hq
    simp only [List.length_cons]
    omega
  · obtain ⟨q, hq, hq2⟩ := snd_of_map _ _ _ h (fun _ => rfl)
    have hq3 := congrArg List.length hq2
    have := parseUnsigned_length _ _ hq
    omega

theorem dropLiteral_length (lit cs rest : List Char) (hl : 0 < lit.length)
    (h : dropLiteral lit cs = some rest) : rest.length < cs.length := by
  unfold dropLiteral at h
  split at h
  · rename_i hp
    cases h
    have := List.IsPrefix.length_le (List.isPrefixOf_iff_prefix.mp hp)
    simp only [List.length_drop]
    omega
  · cases h

theorem parseScalar_length (cs : List Char) (r : JSON × List Char)
    (h : parseScalar cs = some r) : r.2.length < cs.length := by
  unfold parseScalar at h
  split at h
  · cases h
  · rename_i c rest
    split at h
    · obtain ⟨q, hq, hq2⟩ := snd_of_map _ _ _ h (fun _ => rfl)
      have hq3 := congrArg List.length hq2
      have := parseStringBody_length rest.length rest none q (le_refl _) hq
      simp only [List.length_cons]
      omega
    · split at h
      · cases hd : dropLiteral "true".data (c :: rest) with
        | none => rw [hd] at h; cases h
        | some q =>
          rw [hd] at h
          cases h
          exact dropLiteral_length _ _ _ (by decide) hd
      · split at h
        · cases hd : dropLiteral "false".data (c :: rest) with
          | none => rw [hd] at h; cases h
          | some q =>
            rw [hd] at h
            cases h
            exact dropLiteral_length _ _ _ (by decide) hd
        · split at h
          · cases hd : dropLiteral "null".data (c :: rest) with
            | none => rw [hd] at h; cases h
            | some q =>
              rw [hd] at h
              cases h
              exact dropLiteral_length _ _ _ (by decide) hd
          · exact parseNumber_length _ _ h

/-- Success of the three mutually recursive parsers does not depend on the fuel once it
covers the characters consumed: a successful call consumes at least one character, and any
fuel not smaller than the number of characters consumed gives the same result. -/
theorem parse_fuel (n : Nat) :
    (∀ cs r, parseValue n cs = some r →
      r.2.length < cs.length ∧
        ∀ m, cs.length - r.2.length ≤ m → parseValue m cs = some r) ∧
    (∀ cs r, parseElements n cs = some r →
      r.2.length < cs.length ∧
        ∀ m, cs.length - r.2.length ≤ m → parseElements m cs = some r) ∧
    (∀ cs r, parseMembers n cs = some r →
      r.2.length < cs.length ∧
        ∀ m, cs.length - r.2.length ≤ m → parseMembers m cs = some r) := by
  induction n with
  | zero =>
    refine ⟨?_, ?_, ?_⟩ <;> intro cs r h
    · simp [parseValue] at h
    · simp [parseElements] at h
    · simp [parseMembers] at h
  | succ n ih =>
    obtain ⟨ihV, ihE, ihM⟩ := ih
    refine ⟨?_, ?_, ?_⟩
    · intro cs r h
      rw [parseValue] at h
      have hws := skipWs_length_le cs
      cases hsk : skipWs cs with
      | nil => rw [hsk] at h; cases h
      | cons c rest =>
        rw [hsk] at h hws
        simp only [List.length_cons] at h hws
        by_cases hc1 : c = '['
        · rw [if_pos hc1] at h
          have hws2 := skipWs_length_le rest
          split at h
          · rename_i rest1 heq
            cases h
            rw [heq] at hws2
            simp only [List.length_cons] at hws2 ⊢
            refine ⟨by omega, ?_⟩
            intro m hm
            obtain ⟨m', rfl⟩ : ∃ m', m = m' + 1 := ⟨m - 1, by omega⟩
            rw [parseValue]
            simp only [hsk, if_pos hc1, heq]
          · rename_i hne
            obtain ⟨q, hq, hq2⟩ := snd_of_map _ _ _ h (fun _ => rfl)
            have hq3 := congrArg List.length hq2
            obtain ⟨hlen, hup⟩ := ihE _ _ hq
            refine ⟨by omega, ?_⟩
            intro m hm
            obtain ⟨m', rfl⟩ : ∃ m', m = m' + 1 := ⟨m - 1, by omega⟩
            have hm' := hup m' (by omega)
            rw [parseValue]
            simp only [hsk, if_pos hc1]
            rw [hm']
            rw [hq] at h
            exact h
        · rw [if_neg hc1] at h
          by_cases hc2 : c = '\x7b'
          · rw [if_pos hc2] at h
            have hws2 := skipWs_length_le rest
            split at h
            · rename_i rest1 heq
              cases h
              rw [heq] at hws2
              simp only [List.length_cons] at hws2 ⊢
              refine ⟨by omega, ?_⟩
              intro m hm
              obtain ⟨m', rfl⟩ : ∃ m', m = m' + 1 := ⟨m - 1, by omega⟩
              rw [parseValue]
              simp only [hsk, if_neg hc1, if_pos hc2, heq]
            · rename_i hne
              obtain ⟨q, hq, hq2⟩ := snd_of_map _ _ _ h (fun _ => rfl)
              have hq3 := congrArg List.length hq2
              obtain ⟨hlen, hup⟩ := ihM _ _ hq
              refine ⟨by omega, ?_⟩
              intro m hm
              obtain ⟨m', rfl⟩ : ∃ m', m = m' + 1 := ⟨m - 1, by omega⟩
              have hm' := hup m' (by omega)
              rw [parseValue]
              simp only [hsk, if_neg hc1, if_pos hc2]
              rw [hm']
              rw [hq] at h
              exact h
          · rw [if_neg hc2] at h
            have hlen := parseScalar_length _ _ h
            simp only [List.length_cons] at hlen
            refine ⟨by omega, ?_⟩
            intro m hm
            obtain ⟨m', rfl⟩ : ∃ m', m = m' + 1 := ⟨m - 1, by omega⟩
            rw [parseValue]
            simp only [hsk, if_neg hc1, if_neg hc2, h]
    · intro cs r h
      rw [parseElements] at h
      cases hv : parseValue n cs with
      | none => rw [hv] at h; cases h
      | some p =>
        rcases p with ⟨v, rest⟩
        rw [hv] at h
        simp only at h
        obtain ⟨hlenV, hupV⟩ := ihV _ _ hv
        simp only at hlenV hupV
        have hws := skipWs_length_le rest
        split at h
        · rename_i rest1 heq
          obtain ⟨q, hq, hq2⟩ := snd_of_map _ _ _ h (fun _ => rfl)
          have hq3 := congrArg List.length hq2
          obtain ⟨hlenE, hupE⟩ := ihE _ _ hq
          rw [heq] at hws
          simp only [List.length_cons] at hws
          refine ⟨by omega, ?_⟩
          intro m hm
          obtain ⟨m', rfl⟩ : ∃ m', m = m' + 1 := ⟨m - 1, by omega⟩
          rw [parseElements, hupV m' (by omega)]
          simp only [heq, hupE m' (by omega)]
          rw [hq] at h
          exact h
        · rename_i rest1 heq
          cases h
          rw [heq] at hws
          simp only [List.length_cons] at hws ⊢
          refine ⟨by omega, ?_⟩
          intro m hm
          obtain ⟨m', rfl⟩ : ∃ m', m = m' + 1 := ⟨m - 1, by omega⟩
          rw [parseElements, hupV m' (by omega)]
          simp only [heq]
        · cases h
    · intro cs r h
      rw [parseMembers] at h
      have hws0 := skipWs_length_le cs
      split at h
      · rename_i rest heq0
        rw [heq0] at hws0
        simp only [List.length_cons] at hws0
        cases hs : parseStringBody none rest with
        | none => rw [hs] at h; cases h
        | some ks =>
          rcases ks with ⟨key, rest1⟩
          rw [hs] at h
          simp only at h
          have hlenS := parseStringBody_length rest.length rest none _ (le_refl _) hs
          simp only at hlenS
          have hws1 := skipWs_length_le rest1
          split at h
          · rename_i rest2 heq1
            rw [heq1] at hws1
            simp only [List.length_cons] at hws1
            cases hv : parseValue n rest2 with
            | none => rw [hv] at h; cases h
            | some p =>
              rcases p with ⟨v, rest3⟩
              rw [hv] at h
              simp only at h
              obtain ⟨hlenV, hupV⟩ := ihV _ _ hv
              simp only at hlenV hupV
              have hws3 := skipWs_length_le rest3
              split at h
              · rename_i rest4 heq3
                obtain ⟨q, hq, hq2⟩ := snd_of_map _ _ _ h (fun _ => rfl)
                have hq3 := congrArg List.length hq2
                obtain ⟨hlenM, hupM⟩ := ihM _ _ hq
                rw [heq3] at hws3
                simp only [List.length_cons] at hws3
                refine ⟨by omega, ?_⟩
                intro m hm
                obtain ⟨m', rfl⟩ : ∃ m', m = m' + 1 := ⟨m - 1, by omega⟩
                rw [parseMembers]
                simp only [heq0, hs, heq1, hupV m' (by omega), heq3, hupM m' (by omega)]
                rw [hq] at h
                exact h
              · rename_i rest4 heq3
                cases h
                rw [heq3] at hws3
                simp only [List.length_cons] at hws3 ⊢
                refine ⟨by omega, ?_⟩
                intro m hm
                obtain ⟨m', rfl⟩ : ∃ m', m = m' + 1 := ⟨m - 1, by omega⟩
                rw [parseMembers]
                simp only [heq0, hs, heq1, hupV m' (by omega), heq3]
              · cases h
          · cases h
      · cases h

/-- The fuel `JSON.parse` starts with is enough for every text: if the value parser succeeds
on a text with any fuel at all, it succeeds with the same result on the fuel `JSON.parse`
gives it, so `none` always stands for a syntax error. -/
theorem parseValue_fuel (n : Nat) (text : String) (r : JSON × List Char)
    (h : parseValue n text.data = some r) :
    parseValue (text.length + 1) text.data = some r := by
  obtain ⟨_, hup⟩ := (parse_fuel n).1 _ _ h
  apply hup
  simp only [String.length]
  omega

/-! ## Storage -/

theorem lookupEntry_putEntry (key value : String) (es : List (String × String)) :
    lookupEntry key (putEntry key value es) = some value := by
  induction es with
  | nil => simp [putEntry, lookupEntry]
  | cons e es ih =>
    rcases e with ⟨k, v⟩
    by_cases h : k = key
    · simp [putEntry, lookupEntry, h]
    · simp [putEntry, lookupEntry, h, ih]

theorem truthy_stringify (ts : List Todo) : truthy (stringify ts) = true := rfl

theorem load_of_stringify (ls : LocalStorage) (ts : List Todo)
    (h : ls.getItem KEY = some (stringify ts)) : load ls = todosJSON ts := by
  unfold load
  rw [h]
  simp only [truthy_stringify, if_true, parse_stringify]

theorem save_storage_of_fits (app : App)
    (hfit : usedChars (putEntry KEY (stringify app.todos) app.storage.entries) ≤
      app.storage.quota) :
    (save app).storage.getItem KEY = some (stringify app.todos) := by
  unfold save LocalStorage.setItem
  rw [if_pos hfit]
  exact lookupEntry_putEntry _ _ _

theorem save_storage_of_not_fits (app : App)
    (hfit : ¬ usedChars (putEntry KEY (stringify app.todos) app.storage.entries) ≤
      app.storage.quota) :
    (save app).storage = app.storage := by
  unfold save LocalStorage.setItem
  rw [if_neg hfit]

/-! ## Decoding is faithful -/

theorem stripZeros_value (fuel : Nat) : ∀ m e : Int, 0 ≤ e →
    0 ≤ (stripZeros fuel m e).2 ∧
      (stripZeros fuel m e).1 * 10 ^ (stripZeros fuel m e).2.toNat = m * 10 ^ e.toNat := by
  induction fuel with
  | zero => intro m e he; exact ⟨he, rfl⟩
  | succ fuel ih =>
    intro m e he
    unfold stripZeros
    by_cases h : m ≠ 0 ∧ m % 10 = 0
    · rw [if_pos h]
      obtain ⟨h1, h2⟩ := ih (m / 10) (e + 1) (by omega)
      refine ⟨h1, ?_⟩
      rw [h2]
      have : (e + 1).toNat = e.toNat + 1 := by omega
      rw [this, pow_succ]
      have hm : m = m / 10 * 10 := by omega
      calc m / 10 * (10 ^ e.toNat * 10) = (m / 10 * 10) * 10 ^ e.toNat := by ring
        _ = m * 10 ^ e.toNat := by rw [← hm]
    · rw [if_neg h]
      exact ⟨he, rfl⟩

theorem integerValue_decimal (n : Int) : integerValue (decimal n 0) = n := by
  unfold decimal
  by_cases h : n = 0
  · rw [if_pos h, h]; rfl
  · rw [if_neg h]
    have := (stripZeros_value n.natAbs n 0 (le_refl _)).2
    simpa [integerValue] using this

theorem Todo.toJSON_injective (a b : Todo) (h : a.toJSON = b.toJSON) : a = b := by
  rcases a with ⟨i1, t1, d1, c1, n1⟩
  rcases b with ⟨i2, t2, d2, c2, n2⟩
  simp only [Todo.toJSON, JSON.obj.injEq, List.cons.injEq, Prod.mk.injEq, true_and,
    JSON.str.injEq, JSON.bool.injEq, and_true] at h
  obtain ⟨h1, h2, h3, h4, h5⟩ := h
  have h5' : n1 = n2 := by
    have := congrArg integerValue h5
    rwa [integerValue_decimal, integerValue_decimal] at this
  have h3' : d1 = d2 := by
    cases d1 <;> cases d2 <;> simp at h3 ⊢
    exact h3
  rw [h1, h2, h3', h4, h5']

/-- Two lists of todos with the same JSON value are the same list: equal task by task, field
by field, in the same order. -/
theorem todosJSON_injective (a b : List Todo) (h : todosJSON a = todosJSON b) : a = b := by
  unfold todosJSON at h
  have h2 : a.map Todo.toJSON = b.map Todo.toJSON := by
    injection h
  induction a generalizing b with
  | nil =>
    cases b with
    | nil => rfl
    | cons y ys => simp at h2
  | cons x xs ih =>
    cases b with
    | nil => simp at h2
    | cons y ys =>
      simp only [List.map_cons, List.cons.injEq] at h2
      rw [Todo.toJSON_injective x y h2.1, ih ys (by rw [h2.2]) h2.2]

/-! ## Saving and loading -/

/-- Claim C6 as amended, for every non-empty collection. When the storage accepts the write
of `save()`, a following `load()` yields the saved collection, task by task and field by
field (`id`, `title`, `date`, `completed`, `createdAt`) in the same order. When the storage
refuses the write, `save()` leaves the storage as it was, and `load()` yields what it yielded
before. -/
theorem save_load_roundtrip (app : App) (hne : app.todos ≠ []) :
    (usedChars (putEntry KEY (stringify app.todos) app.storage.entries) ≤ app.storage.quota →
      load (save app).storage = todosJSON app.todos ∧
        ∀ ts : List Todo, load (save app).storage = todosJSON ts → ts = app.todos) ∧
    (¬ usedChars (putEntry KEY (stringify app.todos) app.storage.entries) ≤
        app.storage.quota →
      (save app).storage = app.storage ∧ load (save app).storage = load app.storage) := by
  have _hne := hne
  refine ⟨?_, ?_⟩
  · intro hfit
    have h := load_of_stringify (save app).storage app.todos (save_storage_of_fits app hfit)
    refine ⟨h, ?_⟩
    intro ts hts
    rw [h] at hts
    exact (todosJSON_injective _ _ hts).symm
  · intro hfit
    have h := save_storage_of_not_fits app hfit
    exact ⟨h, by rw [h]⟩

set_option maxRecDepth 100000 in
/-- The amended claim C6 at concrete inputs: the page with two tasks, first on a storage with
room, then on a storage that holds an empty list and has no room for the two tasks. -/
theorem save_load_roundtrip_witness :
    (load (save sampleApp).storage = todosJSON sampleApp.todos ∧
      ∀ ts : List Todo, load (save sampleApp).storage = todosJSON ts → ts = sampleApp.todos) ∧
    ((save { sampleApp with storage := smallStorage }).storage = smallStorage ∧
      load (save { sampleApp with storage := smallStorage }).storage = load smallStorage) :=
  ⟨(save_load_roundtrip sampleApp (by decide)).1 (by decide),
    (save_load_roundtrip { sampleApp with storage := smallStorage } (by decide)).2
      (by decide)⟩

set_option maxRecDepth 100000 in
/-- Claim C6 as written fails when the storage refuses the write: `save()` catches the
exception and the storage keeps its previous text, so `load()` returns the old list, here
the empty one, instead of the two tasks just saved. -/
theorem save_load_counterexample :
    sampleApp.todos ≠ [] ∧
    (save { sampleApp with storage := smallStorage }).storage = smallStorage ∧
    load (save { sampleApp with storage := smallStorage }).storage = JSON.arr [] ∧
    load (save { sampleApp with storage := smallStorage }).storage ≠
      todosJSON sampleApp.todos := by
  decide

/-- Claim C7 as amended: `load()` always produces a value. It is the decoded collection when
the stored text is the encoding of a list of tasks, the empty collection when the key is
absent, the stored text is empty or `JSON.parse` rejects it, and otherwise whatever the text
parses to, of any shape: records are not checked for their fields. -/
theorem load_spec (ls : LocalStorage) :
    (∀ ts : List Todo, ls.getItem KEY = some (stringify ts) → load ls = todosJSON ts) ∧
    (ls.getItem KEY = none → load ls = JSON.arr []) ∧
    (ls.getItem KEY = some "" → load ls = JSON.arr []) ∧
    (∀ raw, ls.getItem KEY = some raw → JSON.parse raw = none → load ls = JSON.arr []) ∧
    (∀ raw v, ls.getItem KEY = some raw → raw ≠ "" → JSON.parse raw = some v →
      load ls = v) := by
  refine ⟨fun ts h => load_of_stringify ls ts h, ?_, ?_, ?_, ?_⟩
  · intro h
    unfold load
    rw [h]
  · intro h
    unfold load
    rw [h]
    rfl
  · intro raw h hp
    unfold load
    rw [h]
    simp only [hp]
    split <;> rfl
  · intro raw v h hne hp
    have ht : truthy raw = true := by
      cases hb : truthy raw with
      | true => rfl
      | false => exact absurd ((truthy_eq_false_iff raw).mp hb) hne
    unfold load
    rw [h]
    simp only [ht, if_true, hp]

/-- Claim C7 as written fails for a record that lacks required fields: the stored text
`[{"id":"t_1"}]` is valid JSON, so `load()` keeps the array with the incomplete record; the
result is neither empty nor a list of tasks. -/
theorem load_partial_record_counterexample :
    load partialRecordStorage = JSON.arr [JSON.obj [("id", JSON.str "t_1")]] ∧
    load partialRecordStorage ≠ JSON.arr [] ∧
    ¬ ∃ ts : List Todo, load partialRecordStorage = todosJSON ts := by
  have h : load partialRecordStorage = JSON.arr [JSON.obj [("id", JSON.str "t_1")]] := by
    decide
  refine ⟨h, by decide, ?_⟩
  rintro ⟨ts, hts⟩
  rw [h] at hts
  unfold todosJSON at hts
  injection hts with hl
  cases ts with
  | nil => simp at hl
  | cons t ts =>
    simp only [List.map_cons, List.cons.injEq] at hl
    have := hl.1
    simp [Todo.toJSON] at this

/-! ## Start-up -/

theorem load_eq_nil_of_absent (ls : LocalStorage) (h : ls.getItem KEY = none) :
    load ls = JSON.arr [] := by
  unfold load
  rw [h]

/-- Claim C8 as amended: when nothing was ever written under the key, the collection after
start-up is the three seed tasks, and `save()` is called at once: the storage then holds
their encoding if it accepts the write and is left untouched if it does not. When the key
holds an empty list written earlier, the collection stays empty and the storage is not
written. -/
theorem startup_spec (env : Env) (ls : LocalStorage) :
    (ls.getItem KEY = none →
      (startup env ls).todos = todosJSON (seed env) ∧ (seed env).length = 3 ∧
      (usedChars (putEntry KEY (stringify (seed env)) ls.entries) ≤ ls.quota →
        (startup env ls).storage.getItem KEY = some (stringify (seed env))) ∧
      (¬ usedChars (putEntry KEY (stringify (seed env)) ls.entries) ≤ ls.quota →
        (startup env ls).storage = ls)) ∧
    (ls.getItem KEY = some (stringify []) →
      (startup env ls).todos = JSON.arr [] ∧ (startup env ls).storage = ls) := by
  constructor
  · intro h
    have hl := load_eq_nil_of_absent ls h
    have hs : hasStoredText ls = false := by
      unfold hasStoredText
      rw [h]
    unfold startup
    simp only [hl, if_true, hs, Bool.not_false]
    unfold LocalStorage.setItem
    refine ⟨by split <;> rfl, rfl, ?_, ?_⟩
    · intro hfit
      rw [if_pos hfit]
      exact lookupEntry_putEntry _ _ _
    · intro hfit
      rw [if_neg hfit]
  · intro h
    have hl : load ls = JSON.arr [] := load_of_stringify ls [] h
    have hs : hasStoredText ls = true := by
      unfold hasStoredText
      rw [h]
      rfl
    unfold startup
    simp only [hl, if_true, hs, Bool.not_true, Bool.false_eq_true, if_false, and_self]

set_option maxRecDepth 100000 in
/-- Claim C8 as written fails when the storage refuses the write: on a first run in a browser
that gives the page no quota the three seed tasks are in the collection but nothing is
persisted. -/
theorem startup_counterexample :
    noQuotaStorage.getItem KEY = none ∧
    (startup sampleEnv noQuotaStorage).todos = todosJSON (seed sampleEnv) ∧
    (startup sampleEnv noQuotaStorage).storage.getItem KEY = none := by
  decide

/-! ## `isDueSoon` across the end of daylight-saving time -/

/-- Claim C4, the failing input: at noon of 1 November 2025 in New York, an open task due on
3 November is two calendar days away, yet `isDueSoon` is false, because the night in which
clocks are put back makes the two midnights 49 hours apart. A day later the same task is
due soon. -/
theorem isDueSoon_fall_back :
    isoDay "2025-11-03" = some (localDay newYork2025 noonBeforeFallBack + 2) ∧
    isDueSoon newYork2025 noonBeforeFallBack dueMonday = false ∧
    isDueSoon newYork2025 (noonBeforeFallBack + 25 * msPerHour) dueMonday = true ∧
    isDueSoon ⟨-5 * msPerHour, none⟩ noonBeforeFallBack dueMonday = true := by
  decide

/-- The examples of claim C4 hold in every zone, for a due date that is the value of a date
input with a year from 100 on: a task due today is due soon, a task due in three days is not,
and a completed task never is. -/
theorem isDueSoon_examples (tz : TimeZone) (now : Int) (t : Todo) (s : String) (day : Int)
    (htz : -msPerDay ≤ tz.standard ∧ tz.standard ≤ msPerDay)
    (hnow : -maxTime + 2 * msPerDay ≤ now ∧ now ≤ maxTime)
    (hyear : ¬ (0 ≤ (civilFromDays (localDay tz now)).1 ∧
      (civilFromDays (localDay tz now)).1 ≤ 99))
    (hs : t.date = some s) (hd : dateInputDay s = some day)
    (hdue : ¬ (0 ≤ (civilFromDays day).1 ∧ (civilFromDays day).1 ≤ 99)) :
    (day = localDay tz now → isDueSoon tz now t = !t.completed) ∧
    (day = localDay tz now + 3 → isDueSoon tz now t = false) ∧
    (t.completed = true → isDueSoon tz now t = false) := by
  refine ⟨?_, ?_, isDueSoon_completed tz now t⟩
  · intro hday
    cases hc : t.completed with
    | true => exact isDueSoon_completed tz now t hc
    | false =>
      rw [isDueSoon_dateInput tz now t s day htz hnow hyear hs hd hdue hc, hday]
      simp [msPerDay]
  · intro hday
    cases hc : t.completed with
    | true => exact isDueSoon_completed tz now t hc
    | false =>
      rw [isDueSoon_dateInput tz now t s day htz hnow hyear hs hd hdue hc, hday]
      simp only [Bool.not_false, decide_eq_false_iff_not]
      generalize localDay tz now = T
      unfold UTC TimeZone.inDst msPerDay msPerHour
      rcases tz with ⟨std, dst⟩
      cases dst with
      | none => simp; omega
      | some p =>
        rcases p with ⟨a, b⟩
        simp only [decide_eq_true_eq]
        split_ifs <;> omega

/-! ## The theorems at concrete inputs -/

/-- Claim C3 at a concrete input: at noon of 1 November 2025 (UTC) the open task due on
31 October is overdue, the same task once completed is not, a task due on 1 November is not,
and a task without a due date is not. -/
theorem isOverdue_spec_witness :
    isOverdue sampleEnv.tz sampleEnv.now ⟨"t_1", "Pay rent", some "2025-10-31", false, 0⟩ = true ∧
    isOverdue sampleEnv.tz sampleEnv.now ⟨"t_1", "Pay rent", some "2025-10-31", true, 0⟩ = false ∧
    isOverdue sampleEnv.tz sampleEnv.now ⟨"t_1", "Pay rent", some "2025-11-01", false, 0⟩ = false ∧
    isOverdue sampleEnv.tz sampleEnv.now ⟨"t_1", "Pay rent", none, false, 0⟩ = false :=
  ⟨(isOverdue_spec sampleEnv.tz sampleEnv.now
      ⟨"t_1", "Pay rent", some "2025-10-31", false, 0⟩ (by decide) (by decide)
      (by decide)).2.2.2.2.2 "2025-10-31" rfl (by decide),
    (isOverdue_spec sampleEnv.tz sampleEnv.now
      ⟨"t_1", "Pay rent", some "2025-10-31", true, 0⟩ (by decide) (by decide)
      (by decide)).2.2.2.2.2 "2025-10-31" rfl (by decide),
    (isOverdue_spec sampleEnv.tz sampleEnv.now
      ⟨"t_1", "Pay rent", some "2025-11-01", false, 0⟩ (by decide) (by decide)
      (by decide)).2.2.2.2.1 "2025-11-01" rfl (by decide),
    (isOverdue_spec sampleEnv.tz sampleEnv.now ⟨"t_1", "Pay rent", none, false, 0⟩
      (by decide) (by decide) (by decide)).1 rfl⟩

/-- Claim C5 at a concrete input: no task of the sample page has the id `t_9`, and toggling
it leaves the page as it is. -/
theorem toggleComplete_twice_witness :
    (toggleComplete sampleEnv "t_1" (toggleComplete sampleEnv "t_1" sampleApp)).todos =
      sampleApp.todos ∧
    toggleComplete sampleEnv "t_9" sampleApp = sampleApp :=
  ⟨(toggleComplete_twice sampleEnv sampleEnv "t_1" sampleApp).1,
    (toggleComplete_twice sampleEnv sampleEnv "t_9" sampleApp).2 (by decide)⟩

set_option maxRecDepth 100000 in
/-- Claim C7 at concrete inputs: a storage that was never written loads as the empty
collection, and the text with the incomplete record loads as what it parses to. -/
theorem load_spec_witness :
    load noQuotaStorage = JSON.arr [] ∧
    load partialRecordStorage = JSON.arr [JSON.obj [("id", JSON.str "t_1")]] :=
  ⟨(load_spec noQuotaStorage).2.1 (by decide),
    (load_spec partialRecordStorage).2.2.2.2 "[\x7b\"id\":\"t_1\"\x7d]"
      (JSON.arr [JSON.obj [("id", JSON.str "t_1")]]) (by decide) (by decide) (by decide)⟩

set_option maxRecDepth 100000 in
/-- Claim C8 at concrete inputs: a first run on an empty storage with room seeds three tasks
and stores them; a run on a storage that holds an empty list leaves everything as it is. -/
theorem startup_spec_witness :
    ((startup sampleEnv emptyApp.storage).todos = todosJSON (seed sampleEnv) ∧
      (seed sampleEnv).length = 3 ∧
      (startup sampleEnv emptyApp.storage).storage.getItem KEY =
        some (stringify (seed sampleEnv))) ∧
    ((startup sampleEnv smallStorage).todos = JSON.arr [] ∧
      (startup sampleEnv smallStorage).storage = smallStorage) :=
  ⟨⟨((startup_spec sampleEnv emptyApp.storage).1 (by decide)).1,
      ((startup_spec sampleEnv emptyApp.storage).1 (by decide)).2.1,
      ((startup_spec sampleEnv emptyApp.storage).1 (by decide)).2.2.1 (by decide)⟩,
    (startup_spec sampleEnv smallStorage).2 (by decide)⟩

/-! ## Checks on concrete inputs -/

example : daysFromCivil 1970 1 1 = 0 := by decide
example : daysFromCivil 2025 11 3 = 20395 := by decide
example : civilFromDays 20395 = (2025, 11, 3) := by decide
example : civilFromDays (-1) = (1969, 12, 31) := by decide
example : isoDay "2025-11-03" = some 20395 := by decide
example : isoDay "2025-02-29" = none := by decide
example : isoDay "2024-02-29" = some 19782 := by decide
example : isoDay "" = none := by decide
example : isoTime "23:59:59".data = some 86399000 := by decide
example : trim "  buy milk \n" = "buy milk" := by decide
example : addDaysISO sampleEnv 1 = "2025-11-02" := by decide
example : addDaysISO sampleEnv (-1) = "2025-10-31" := by decide
example : stringify [] = "[]" := by decide
example : stringify [⟨"t_1", "a\"b\n", none, false, 17⟩] =
    "[\x7b\"id\":\"t_1\",\"title\":\"a\\\"b\\n\",\"date\":null,\"completed\":false,\"createdAt\":17\x7d]" := by
  decide
example : JSON.parse "[]" = some (JSON.arr []) := by decide
example : JSON.parse " [1.50, \"a\\u00e9\\ud83d\\ude00\\n\", \x7b\"k\": null, \"k\": [true]\x7d ] " =
    some (JSON.arr [JSON.num 15 (-1), JSON.str "aé😀\n",
      JSON.obj [("k", JSON.arr [JSON.bool true])]]) := by
  decide
example : JSON.parse "[1,]" = none := by decide
example : JSON.parse "01" = none := by decide
example : JSON.parse "-120" = some (JSON.num (-12) 1) := by decide
example : (handleAdd sampleEnv { emptyApp with todoInput := " hi " }).todos =
    [⟨"t_k3x9q20", "hi", none, false, 1761998400000⟩] := by decide
example : (render sampleEnv { sampleApp with filterSelect := "overdue" }).shown =
    [⟨"t_1", "Pay rent", some "2025-10-31", false, 1761900000000⟩] := by decide
example : (render sampleEnv { sampleApp with searchInput := "CALL" }).shown =
    [⟨"t_2", "Call Ana", none, true, 1761800000000⟩] := by decide
example : (render sampleEnv { sampleApp with searchInput := "CALL" }).stats = "1 of 2 todo(s)" := by
  decide
example : isOverdue sampleEnv.tz sampleEnv.now
    ⟨"t_1", "Pay rent", some "2025-10-31", false, 0⟩ = true := by decide
example : dateFromString sampleEnv.tz "-271821-04-19" = none := by decide
example : dateFromString sampleEnv.tz "-271821-04-20" = some (-8640000000000000) := by decide
example : dateFromString sampleEnv.tz "+275760-09-13" = some 8640000000000000 := by decide
example : dateFromString sampleEnv.tz "+275760-09-14" = none := by decide
example : dateInputDay "0050-06-16" = some (daysFromCivil 50 6 16) := by decide
example : dateInputDay "0000-06-16" = none := by decide
example : dateInputDay "2025-02-29" = none := by decide
example : startOfDay sampleEnv.tz (dateFromString sampleEnv.tz "0075-06-15T00:00:00") =
    dateFromString sampleEnv.tz "1975-06-15T00:00:00" := by decide
example : isDueSoon sampleEnv.tz (daysFromCivil 1975 6 15 * msPerDay)
    ⟨"t_1", "Pay rent", some "0075-06-15", false, 0⟩ = true := by decide
set_option maxRecDepth 100000 in
example : (add sampleEnv " buy milk " sampleApp).todos =
    ⟨"t_k3x9q20", "buy milk", none, false, 1761998400000⟩ :: sampleApp.todos := by decide

end AwesomeTodo
